import Mathlib

/-!
# Verification of the ledger-ai dialogue resolution engine

Shallow embedding of the dialogue resolution engine of the `ledger-ai`
repository (`src/client/graph_intent.py`, `src/client/graph_helpers.py`,
`src/client/graph_nodes.py`, `src/client/session_state.py`,
`src/client/main.py`, plus `normalize_amount_text` of `src/client/llm.py`),
together with theorems settling the specification claims.

Modelling conventions:
* Python strings are Lean `String`s; `None` becomes `Option.none`.
* Python regular expressions are embedded as hand-written scanners on
  `List Char` with the same leftmost-match semantics (`\s` is modelled by
  the ASCII whitespace class, `\w` by ASCII alphanumerics, `_`, and any
  non-ASCII codepoint — adequate on the Latin/Hangul input space).
* The NLU backend (`llm.chat` plus JSON parsing and pydantic validation)
  is an oracle `Option IntentExtraction`; `none` models an exception or
  output from which no intent object can be parsed.
* Ledger collaborator calls are an oracle environment; an `Option` result
  with `none` models a raised exception (caught by `_invoke_tool`).
* `uuid.uuid4().hex` is an oracle string supplied with the turn.
* `date.today()` is an explicit `Date` parameter.
-/

namespace LedgerAI

/-- ASCII whitespace class, modelling Python's `\s` on the ASCII range. -/
def pyIsWs (c : Char) : Bool :=
  c = ' ' || c = '\t' || c = '\n' || c = '\x0d' || c = '\x0b' || c = '\x0c'

/-- `re.sub(r"\s+", "", s)` on a character list: drop all whitespace. -/
def stripWsList (l : List Char) : List Char :=
  l.filter (fun c => !pyIsWs c)

/-- `re.sub(r"\s+", "", s)` — remove all whitespace from a string. -/
def stripWs (s : String) : String :=
  ⟨stripWsList s.toList⟩

/-- Python `str.strip()` on a character list. -/
def pyStripList (l : List Char) : List Char :=
  ((l.dropWhile pyIsWs).reverse.dropWhile pyIsWs).reverse

/-- Python `str.strip()`. -/
def pyStrip (s : String) : String :=
  ⟨pyStripList s.toList⟩

/-- Python `str.lower()` (ASCII case folding; Hangul is unaffected). -/
def pyLower (s : String) : String :=
  ⟨s.toList.map Char.toLower⟩

/-- `needle` is a prefix of `hay` (as character lists). -/
def listIsPre : List Char → List Char → Bool
  | [], _ => true
  | _ :: _, [] => false
  | a :: as, b :: bs => a = b && listIsPre as bs

/-- `needle` occurs contiguously in `hay`; Python's `needle in hay`. -/
def listOccurs (needle : List Char) : List Char → Bool
  | [] => needle.isEmpty
  | b :: bs => listIsPre needle (b :: bs) || listOccurs needle bs

/-- Python `needle in hay` on strings. -/
def strContains (hay needle : String) : Bool :=
  listOccurs needle.toList hay.toList

/-- Maximal leading run of ASCII digits, with the remainder. -/
def takeDigits (l : List Char) : List Char × List Char :=
  (l.takeWhile Char.isDigit, l.dropWhile Char.isDigit)

/-- Skip `\s*`. -/
def skipWs (l : List Char) : List Char :=
  l.dropWhile pyIsWs

/-- Numeric value of a digit run, as Python `int` of the digit string. -/
def digitsToNat (l : List Char) : Nat :=
  l.foldl (fun n c => 10 * n + (c.toNat - '0'.toNat)) 0

/-- Python truthiness for an optional string: `None` and `""` are falsy. -/
def truthyStr : Option String → Option String
  | none => none
  | some s => if s = "" then none else some s

/-! ## Calendar dates (model of Python `datetime.date`) -/

/-- A calendar date, model of Python `datetime.date`. -/
structure Date where
  year : Nat
  month : Nat
  day : Nat
  deriving Repr, DecidableEq

/-- Gregorian leap-year rule. -/
def isLeapYear (y : Nat) : Bool :=
  (y % 4 = 0 && y % 100 ≠ 0) || y % 400 = 0

/-- Number of days in a month (0 for an invalid month number). -/
def daysInMonth (y m : Nat) : Nat :=
  if m = 1 then 31 else if m = 2 then (if isLeapYear y then 29 else 28)
  else if m = 3 then 31 else if m = 4 then 30 else if m = 5 then 31
  else if m = 6 then 30 else if m = 7 then 31 else if m = 8 then 31
  else if m = 9 then 30 else if m = 10 then 31 else if m = 11 then 30
  else if m = 12 then 31 else 0

/-- Validity domain of the Python `date(y, m, d)` constructor. -/
def validDate (y m d : Nat) : Bool :=
  1 ≤ y && y ≤ 9999 && 1 ≤ m && m ≤ 12 && 1 ≤ d && d ≤ daysInMonth y m

/-- `date(y, m, d)` with `ValueError` modelled as `none`. -/
def mkDate (y m d : Nat) : Option Date :=
  if validDate y m d then some ⟨y, m, d⟩ else none

/-- The day before a date (used for `timedelta` subtraction). -/
def prevDay (d : Date) : Date :=
  if 1 < d.day then { d with day := d.day - 1 }
  else if 1 < d.month then ⟨d.year, d.month - 1, daysInMonth d.year (d.month - 1)⟩
  else ⟨d.year - 1, 12, 31⟩

/-- `d - timedelta(days := n)`. -/
def subDays (d : Date) : Nat → Date
  | 0 => d
  | n + 1 => subDays (prevDay d) n

/-- Left-pad a numeral with zeros to the given width. -/
def padNum (width n : Nat) : String :=
  let s := toString n
  ⟨List.replicate (width - s.length) '0' ++ s.toList⟩

/-- `date.isoformat()`: `YYYY-MM-DD`. -/
def isoOfDate (d : Date) : String :=
  padNum 4 d.year ++ "-" ++ padNum 2 d.month ++ "-" ++ padNum 2 d.day

/-! ## Scanners for the regular expressions of `normalize_relative_date`

Each Python regex is embedded as a scanner with the same semantics.
Inside these patterns a digit can never match `\s*` or a literal, so
greedy maximal digit runs plus position-by-position scanning reproduce
the regex backtracking behaviour exactly.  -/

/-- Try `(\d+)\s*days?\s*ago` at the head of the list. -/
def daysAgoAt (l : List Char) : Option Nat :=
  let (ds, rest) := takeDigits l
  if ds.isEmpty then none
  else
    match skipWs rest with
    | 'd' :: 'a' :: 'y' :: rest2 =>
      let rest3 := match rest2 with
        | 's' :: r => r
        | r => r
      match skipWs rest3 with
      | 'a' :: 'g' :: 'o' :: _ => some (digitsToNat ds)
      | _ => none
    | _ => none

/-- `re.search(r"(\d+)\s*days?\s*ago", l)`: numeric value of group 1. -/
def searchDaysAgo : List Char → Option Nat
  | [] => none
  | c :: rest =>
    match daysAgoAt (c :: rest) with
    | some n => some n
    | none => searchDaysAgo rest

/-- Try `(\d+)\s*일\s*전` at the head of the list. -/
def ilJeonAt (l : List Char) : Option Nat :=
  let (ds, rest) := takeDigits l
  if ds.isEmpty then none
  else
    match skipWs rest with
    | '일' :: rest2 =>
      match skipWs rest2 with
      | '전' :: _ => some (digitsToNat ds)
      | _ => none
    | _ => none

/-- `re.search(r"(\d+)\s*일\s*전", l)`: numeric value of group 1. -/
def searchIlJeon : List Char → Option Nat
  | [] => none
  | c :: rest =>
    match ilJeonAt (c :: rest) with
    | some n => some n
    | none => searchIlJeon rest

/-- `re.fullmatch(r"\d{4}-\d{2}-\d{2}", l)`. -/
def isoFullmatch (l : List Char) : Bool :=
  match l with
  | [a, b, c, d, '-', e, f, '-', g, h] =>
    a.isDigit && b.isDigit && c.isDigit && d.isDigit &&
      e.isDigit && f.isDigit && g.isDigit && h.isDigit
  | _ => false

/-- `re.fullmatch(r"(\d{1,2})\s*월\s*(\d{1,2})\s*일", l)`: the two groups. -/
def monthDayFullmatch (l : List Char) : Option (Nat × Nat) :=
  let (ms, rest) := takeDigits l
  if ms.isEmpty || 2 < ms.length then none
  else
    match skipWs rest with
    | '월' :: rest2 =>
      let (ds, rest3) := takeDigits (skipWs rest2)
      if ds.isEmpty || 2 < ds.length then none
      else
        match skipWs rest3 with
        | ['일'] => some (digitsToNat ms, digitsToNat ds)
        | _ => none
    | _ => none

/-- `re.fullmatch(r"(\d{1,2})\s*일", l)`: the numeric group. -/
def dayFullmatch (l : List Char) : Option Nat :=
  let (ds, rest) := takeDigits l
  if ds.isEmpty || 2 < ds.length then none
  else
    match skipWs rest with
    | ['일'] => some (digitsToNat ds)
    | _ => none

/-- `re.fullmatch(r"(\d{2,4})\s*년\s*(\d{1,2})\s*월\s*(\d{1,2})\s*일", l)`. -/
def ymdFullmatch (l : List Char) : Option (Nat × Nat × Nat) :=
  let (ys, rest) := takeDigits l
  if ys.length < 2 || 4 < ys.length then none
  else
    match skipWs rest with
    | '년' :: rest2 =>
      let (ms, rest3) := takeDigits (skipWs rest2)
      if ms.isEmpty || 2 < ms.length then none
      else
        match skipWs rest3 with
        | '월' :: rest4 =>
          let (ds, rest5) := takeDigits (skipWs rest4)
          if ds.isEmpty || 2 < ds.length then none
          else
            match skipWs rest5 with
            | ['일'] => some (digitsToNat ys, digitsToNat ms, digitsToNat ds)
            | _ => none
        | _ => none
    | _ => none

/-! ## `normalize_relative_date`, `normalize_amount`, `is_item_substring`
(`src/client/graph_intent.py`) -/

/-- `normalize_relative_date(text)` of `src/client/graph_intent.py`,
with `date.today()` passed explicitly. -/
def normalizeRelativeDate (today : Date) (text : Option String) : Option String :=
  match text with
  | none => none
  | some t =>
    if t = "" then none
    else
      let value := pyLower (pyStrip t)
      let v := value.toList
      if value = "today" ∨ value = "오늘" then some (isoOfDate today)
      else if value = "yesterday" ∨ value = "어제" then
        some (isoOfDate (subDays today 1))
      else if value = "day before yesterday" ∨ value = "2 days ago" ∨
          value = "two days ago" ∨ value = "그제" ∨ value = "엊그제" then
        some (isoOfDate (subDays today 2))
      else
        match searchDaysAgo v with
        | some n => some (isoOfDate (subDays today n))
        | none =>
        match searchIlJeon v with
        | some n => some (isoOfDate (subDays today n))
        | none =>
        if isoFullmatch v then some value
        else
        match monthDayFullmatch v with
        | some (m, d) => (mkDate today.year m d).map isoOfDate
        | none =>
        match dayFullmatch v with
        | some d => (mkDate today.year today.month d).map isoOfDate
        | none =>
        match ymdFullmatch v with
        | some (yRaw, m, d) =>
          let y := if yRaw < 100 then 2000 + yRaw else yRaw
          (mkDate y m d).map isoOfDate
        | none => none

/-- `normalize_amount(value)` of `src/client/graph_intent.py`; the caller's
`str(value)` conversion is done before the call, `None` stays `none`. -/
def normalizeAmount : Option String → Option Nat
  | none => none
  | some s =>
    let cleaned := s.toList.filter Char.isDigit
    if cleaned.isEmpty then none else some (digitsToNat cleaned)

/-- `is_item_substring(message, item)` of `src/client/graph_intent.py`. -/
def isItemSubstring (message : String) (item : Option String) : Bool :=
  match item with
  | none => false
  | some i =>
    if i = "" then false
    else
      let msg := pyStrip message
      let it := pyStrip i
      if msg = "" || it = "" then false
      else strContains msg it || strContains (stripWs msg) (stripWs it)

/-! ## Scanners for the patterns of `extract_date_from_message`

These return the matched substring (`m.group(0)`), which the source then
feeds back into `normalize_relative_date`. -/

/-- Scan positions left to right with a per-position matcher. -/
def searchWith (f : List Char → Option (List Char)) : List Char → Option (List Char)
  | [] => none
  | c :: rest =>
    match f (c :: rest) with
    | some m => some m
    | none => searchWith f rest

/-- `\d{1,2}-` (greedy, inside the ISO date pattern). -/
def digits12Dash (l : List Char) : Option (List Char × List Char) :=
  match l with
  | d1 :: d2 :: rest =>
    if d1.isDigit then
      if d2.isDigit then
        match rest with
        | '-' :: rest2 => some ([d1, d2, '-'], rest2)
        | _ => none
      else if d2 = '-' then some ([d1, '-'], rest)
      else none
    else none
  | _ => none

/-- Trailing `\d{1,2}` (greedy, nothing after it in the pattern). -/
def digits12End (l : List Char) : Option (List Char × List Char) :=
  match l with
  | d1 :: d2 :: rest =>
    if d1.isDigit then
      if d2.isDigit then some ([d1, d2], rest) else some ([d1], d2 :: rest)
    else none
  | [d1] => if d1.isDigit then some ([d1], []) else none
  | [] => none

/-- Try `\d{4}-\d{1,2}-\d{1,2}` at the head. -/
def isoDateAt (l : List Char) : Option (List Char) :=
  match l with
  | a :: b :: c :: d :: '-' :: rest =>
    if a.isDigit && b.isDigit && c.isDigit && d.isDigit then
      match digits12Dash rest with
      | some (mseg, rest2) =>
        match digits12End rest2 with
        | some (dseg, _) => some ([a, b, c, d, '-'] ++ mseg ++ dseg)
        | none => none
      | none => none
    else none
  | _ => none

/-- Try `\d{2,4}\s*년\s*\d{1,2}\s*월\s*\d{1,2}\s*일` at the head. -/
def ymdTextAt (l : List Char) : Option (List Char) :=
  let (ys, rest) := takeDigits l
  if ys.length < 2 || 4 < ys.length then none
  else
    let ws1 := rest.takeWhile pyIsWs
    match rest.dropWhile pyIsWs with
    | '년' :: rest2 =>
      let ws2 := rest2.takeWhile pyIsWs
      let (ms, rest3) := takeDigits (rest2.dropWhile pyIsWs)
      if ms.isEmpty || 2 < ms.length then none
      else
        let ws3 := rest3.takeWhile pyIsWs
        match rest3.dropWhile pyIsWs with
        | '월' :: rest4 =>
          let ws4 := rest4.takeWhile pyIsWs
          let (ds, rest5) := takeDigits (rest4.dropWhile pyIsWs)
          if ds.isEmpty || 2 < ds.length then none
          else
            let ws5 := rest5.takeWhile pyIsWs
            match rest5.dropWhile pyIsWs with
            | '일' :: _ =>
              some (ys ++ ws1 ++ ['년'] ++ ws2 ++ ms ++ ws3 ++ ['월'] ++
                ws4 ++ ds ++ ws5 ++ ['일'])
            | _ => none
        | _ => none
    | _ => none

/-- Try `\d{1,2}\s*월\s*\d{1,2}\s*일` at the head. -/
def monthDayTextAt (l : List Char) : Option (List Char) :=
  let (ms, rest) := takeDigits l
  if ms.isEmpty || 2 < ms.length then none
  else
    let ws1 := rest.takeWhile pyIsWs
    match rest.dropWhile pyIsWs with
    | '월' :: rest2 =>
      let ws2 := rest2.takeWhile pyIsWs
      let (ds, rest3) := takeDigits (rest2.dropWhile pyIsWs)
      if ds.isEmpty || 2 < ds.length then none
      else
        let ws3 := rest3.takeWhile pyIsWs
        match rest3.dropWhile pyIsWs with
        | '일' :: _ => some (ms ++ ws1 ++ ['월'] ++ ws2 ++ ds ++ ws3 ++ ['일'])
        | _ => none
    | _ => none

/-- Try `\d{1,2}\s*일(?!\s*전)` at the head (negative lookahead for `전`). -/
def dayNotJeonAt (l : List Char) : Option (List Char) :=
  let (ds, rest) := takeDigits l
  if ds.isEmpty || 2 < ds.length then none
  else
    let ws1 := rest.takeWhile pyIsWs
    match rest.dropWhile pyIsWs with
    | '일' :: rest2 =>
      match skipWs rest2 with
      | '전' :: _ => none
      | _ => some (ds ++ ws1 ++ ['일'])
    | _ => none

/-- Try `\d+\s*일\s*전` at the head. -/
def ilJeonTextAt (l : List Char) : Option (List Char) :=
  let (ds, rest) := takeDigits l
  if ds.isEmpty then none
  else
    let ws1 := rest.takeWhile pyIsWs
    match rest.dropWhile pyIsWs with
    | '일' :: rest2 =>
      let ws2 := rest2.takeWhile pyIsWs
      match rest2.dropWhile pyIsWs with
      | '전' :: _ => some (ds ++ ws1 ++ ['일'] ++ ws2 ++ ['전'])
      | _ => none
    | _ => none

/-- Try `\d+\s*days?\s*ago` (with `re.I`) at the head. -/
def daysAgoTextAt (l : List Char) : Option (List Char) :=
  let (ds, rest) := takeDigits l
  if ds.isEmpty then none
  else
    let ws1 := rest.takeWhile pyIsWs
    match rest.dropWhile pyIsWs with
    | c1 :: c2 :: c3 :: rest2 =>
      if c1.toLower = 'd' && c2.toLower = 'a' && c3.toLower = 'y' then
        let step : List Char × List Char :=
          match rest2 with
          | c4 :: r => if c4.toLower = 's' then ([c4], r) else ([], c4 :: r)
          | [] => ([], [])
        let ws2 := step.2.takeWhile pyIsWs
        match step.2.dropWhile pyIsWs with
        | a1 :: a2 :: a3 :: _ =>
          if a1.toLower = 'a' && a2.toLower = 'g' && a3.toLower = 'o' then
            some (ds ++ ws1 ++ [c1, c2, c3] ++ step.1 ++ ws2 ++ [a1, a2, a3])
          else none
        | _ => none
      else none
    | _ => none

/-- First-defined (truthy) choice of two optional strings. -/
def orElseT (a b : Option String) : Option String :=
  match truthyStr a with
  | some s => some s
  | none => b

/-- `extract_date_from_message(message)` of `src/client/graph_intent.py`:
the date patterns tried in fixed order, each match normalized; keyword
fallback to today/yesterday at the end. -/
def extractDateFromMessage (today : Date) (message : String) : Option String :=
  let msg := message.toList
  let tryPat (f : List Char → Option (List Char)) : Option String :=
    match searchWith f msg with
    | some m => normalizeRelativeDate today (some ⟨m⟩)
    | none => none
  let fromPatterns :=
    orElseT (tryPat isoDateAt) <| orElseT (tryPat ymdTextAt) <|
    orElseT (tryPat monthDayTextAt) <| orElseT (tryPat dayNotJeonAt) <|
    orElseT (tryPat ilJeonTextAt) <| tryPat daysAgoTextAt
  match truthyStr fromPatterns with
  | some s => some s
  | none =>
    let msgL := pyLower message
    if strContains message "오늘" || strContains msgL "today" then
      some (isoOfDate today)
    else if strContains message "어제" || strContains msgL "yesterday" then
      some (isoOfDate (subDays today 1))
    else none

/-! ## Intent data model (`src/client/graph_state.py`, `graph_intent.py`) -/

/-- The `Intent` dataclass of `src/client/graph_state.py`.  Amounts are
`Nat` because they only ever come out of `normalize_amount`. -/
structure Intent where
  intent : String
  date : Option String := none
  item : Option String := none
  amount : Option Nat := none
  target : Option String := none
  deriving Repr, DecidableEq

/-- The `IntentExtraction` pydantic model: the parsed NLU output.
`intent` is kept as a raw string (pydantic restricts it to the six
Literal values, which `extract_intent` re-validates anyway). -/
structure IntentExtraction where
  intent : String := "unknown"
  date : Option String := none
  item : Option String := none
  amount : Option Int := none
  target : Option String := none
  deriving Repr, DecidableEq

/-! ## Scanners for the fallback extractor's amount patterns -/

/-- Python's `\w` on our input space: ASCII alphanumerics, underscore,
and any non-ASCII codepoint (covers Hangul). -/
def isWordChar (c : Char) : Bool :=
  c.isAlphanum || c = '_' || 127 < c.val

/-- Try `([\d,]+)\s*원` at the head of the list; returns group 1. -/
def amountWonAt (l : List Char) : Option (List Char) :=
  let run := l.takeWhile (fun c => c.isDigit || c = ',')
  if run.isEmpty then none
  else
    match skipWs (l.dropWhile (fun c => c.isDigit || c = ',')) with
    | '원' :: _ => some run
    | _ => none

/-- After a digit run: remaining digits then a word-boundary check. -/
def bareAfterDigits : List Char → Bool
  | [] => true
  | c :: rest => if c.isDigit then bareAfterDigits rest else !isWordChar c

/-- Scan for `\b\d+\b`, tracking whether the previous char was a word char. -/
def searchBareNumAux : Bool → List Char → Bool
  | _, [] => false
  | prevWord, c :: rest =>
    (if c.isDigit && !prevWord then bareAfterDigits rest else false) ||
      searchBareNumAux (isWordChar c) rest

/-- `re.search(r"\b\d+\b", l)` as a presence test. -/
def searchBareNum (l : List Char) : Bool :=
  searchBareNumAux false l

/-! ## `minimal_fallback_intent` and `extract_intent` -/

/-- `minimal_fallback_intent(message)` of `src/client/graph_intent.py`:
the deterministic keyword/pattern fallback extractor. -/
def minimalFallbackIntent (today : Date) (message : String) : Intent :=
  let msg := message
  let msgL := pyLower msg
  let intent :=
    if strContains msg "총합" || strContains msg "합계" ||
        strContains msgL "sum" || strContains msgL "total" then "sum"
    else if strContains msg "삭제" || strContains msg "지워" ||
        strContains msgL "delete" then "delete"
    else if strContains msg "수정" || strContains msg "바꿔" ||
        strContains msgL "change" || strContains msgL "update" then "update"
    else if strContains msg "내역" || strContains msg "조회" ||
        strContains msg "뭐" || strContains msgL "what did i" ||
        strContains msgL "list" then "select"
    else if (searchWith amountWonAt msg.toList).isSome ||
        searchBareNum msgL.toList then "insert"
    else "unknown"
  let target :=
    if strContains msg "방금" || strContains msg "최근" ||
        strContains msg "그거" || strContains msg "그것" ||
        strContains msg "마지막" || strContains msgL "last" then some "last"
    else none
  let entryDate := extractDateFromMessage today msg
  let amount :=
    match searchWith amountWonAt msg.toList with
    | some g => normalizeAmount (some ⟨g⟩)
    | none => none
  { intent := intent, date := entryDate, item := none, amount := amount,
    target := target }

/-- The item post-processing of `extract_intent`: strip a truthy raw
item, then discard it when the hallucination guard
(`is_item_substring`) rejects it. -/
def guardedItem (message : String) (rawItem : Option String) : Option String :=
  let item1 : Option String :=
    match truthyStr rawItem with
    | some s => some (pyStrip s)
    | none => none
  match item1 with
  | some it =>
    if it ≠ "" ∧ ¬ isItemSubstring message (some it) then none else item1
  | none => none

/-- `extract_intent(message, llm, prompt)` of `src/client/graph_intent.py`.
The NLU invocation plus JSON/pydantic parsing is the oracle `nlu`;
`none` models a backend exception or unparseable output (`data = {}`). -/
def extractIntent (today : Date) (message : String)
    (nlu : Option IntentExtraction) : Intent :=
  match nlu with
  | none => minimalFallbackIntent today message
  | some data =>
    let intent0 := pyLower (pyStrip data.intent)
    let intent :=
      if intent0 = "insert" ∨ intent0 = "select" ∨ intent0 = "update" ∨
          intent0 = "delete" ∨ intent0 = "sum" ∨ intent0 = "unknown" then
        intent0
      else "unknown"
    let fallback := minimalFallbackIntent today message
    if intent = "unknown" ∧ fallback.intent ≠ "unknown" then fallback
    else
      let dateValue :=
        match truthyStr data.date with
        | some d => normalizeRelativeDate today (some d)
        | none => none
      let item := guardedItem message data.item
      let amount :=
        match data.amount with
        | none => none
        | some a => normalizeAmount (some (toString a))
      let target :=
        match truthyStr data.target with
        | some t =>
          let t' := pyStrip t
          if t' = "last" then some "last" else none
        | none => none
      { intent := intent, date := dateValue, item := item, amount := amount,
        target := target }

/-! ## `extract_bulk_insert_candidates` -/

/-- A bulk-insert candidate (`{"date", "item", "amount"}` dict). -/
structure Candidate where
  date : String
  item : String
  amount : Nat
  deriving Repr, DecidableEq

/-- The `Intent` built inside the batch loop of
`extract_bulk_insert_candidates` (no enum validation, no hallucination
guard, no `"last"` filter — exactly as in the source). -/
def mkBatchIntent (today : Date) (data : IntentExtraction) : Intent :=
  { intent := data.intent,
    date :=
      match truthyStr data.date with
      | some d => normalizeRelativeDate today (some d)
      | none => none,
    item :=
      match truthyStr data.item with
      | some s => some (pyStrip s)
      | none => none,
    amount :=
      match data.amount with
      | none => none
      | some a => normalizeAmount (some (toString a)),
    target :=
      match truthyStr data.target with
      | some t => some (pyStrip t)
      | none => none }

/-- Split a character list at every `','` (Python `msg.split(",")`). -/
def splitOnComma : List Char → List (List Char)
  | [] => [[]]
  | ',' :: rest => [] :: splitOnComma rest
  | c :: rest =>
    match splitOnComma rest with
    | [] => [[c]]
    | seg :: segs => (c :: seg) :: segs

/-- The segment list: `re.split(r"\s*,\s*", msg)` followed by strip and
drop-empties, modelled by splitting on `','` then stripping, which is
extensionally identical. -/
def bulkSegments (msg : String) : List String :=
  ((splitOnComma msg.toList).map (fun l => pyStrip ⟨l⟩)).filter (fun s => s ≠ "")

/-- The per-segment resolution loop of `extract_bulk_insert_candidates`:
the batch output when parseable, the inner `extract_intent` otherwise,
the full `extract_intent` fallback when the batch call raised. -/
def resolvedSegments (today : Date) (segments : List String)
    (batchOut : Option (List (Option IntentExtraction)))
    (nlu : String → Option IntentExtraction) : List Intent :=
  match batchOut with
  | none => segments.map (fun seg => extractIntent today seg (nlu seg))
  | some outs =>
    (segments.zip outs).map (fun p =>
      match p.2 with
      | none => extractIntent today p.1 (nlu p.1)
      | some data => mkBatchIntent today data)

/-- `extract_bulk_insert_candidates(message, entry_date, llm, prompt)`.
`batchOut` is the batch NLU oracle (`none` = the batch call raised, per
segment `none` = unparseable output); `nlu` is the per-message oracle
used by the inner `extract_intent` calls.  The batch is assumed to
return one output per segment (`List.zip`), as `chain.batch` does. -/
def extractBulkInsertCandidates (today : Date) (message : String)
    (entryDate : Option String)
    (batchOut : Option (List (Option IntentExtraction)))
    (nlu : String → Option IntentExtraction) : List Candidate :=
  let msg := message
  if ¬ (strContains msg "원" ∧ strContains msg ",") then []
  else
    let defaultDate :=
      match truthyStr (extractDateFromMessage today msg) with
      | some d => d
      | none =>
        match truthyStr entryDate with
        | some d => d
        | none => isoOfDate today
    let segments := bulkSegments msg
    if segments.length < 2 then []
    else
      let parsedSegments := resolvedSegments today segments batchOut nlu
      parsedSegments.filterMap (fun parsed =>
        if parsed.intent = "insert" then
          match truthyStr parsed.item, parsed.amount with
          | some it, some a =>
            some { date := (truthyStr parsed.date).getD defaultDate,
                   item := it, amount := a }
          | _, _ => none
        else none)

/-! ## `normalize_amount_text` (`src/client/llm.py`) -/

/-- Tail `\s*(천|만)?\s*(원)?` of the amount pattern, anchored at the end. -/
def amountTailParse (ds fs : List Char) (rest : List Char) :
    Option (List Char × List Char × Option Char) :=
  let l1 := skipWs rest
  let unitStep : Option Char × List Char :=
    match l1 with
    | '천' :: r => (some '천', r)
    | '만' :: r => (some '만', r)
    | _ => (none, l1)
  match skipWs unitStep.2 with
  | [] => some (ds, fs, unitStep.1)
  | ['원'] => some (ds, fs, unitStep.1)
  | _ => none

/-- Parse `(\d+(?:\.\d+)?)\s*(천|만)?\s*(원)?` against the whole list:
integer digits, fractional digits, optional unit char. -/
def amountTextParse (l : List Char) : Option (List Char × List Char × Option Char) :=
  let (ds, rest) := takeDigits l
  if ds.isEmpty then none
  else
    match rest with
    | '.' :: r =>
      let (fs, r2) := takeDigits r
      if fs.isEmpty then none else amountTailParse ds fs r2
    | _ => amountTailParse ds [] rest

/-- `normalize_amount_text(value)` of `src/client/llm.py`.  Python float
arithmetic is modelled as exact rational arithmetic truncated by `int()`
(exact for the unit-scaled integers this code handles). -/
def normalizeAmountText (value : String) : Option Nat :=
  let text0 := pyLower (pyStrip value)
  if text0 = "" then none
  else
    let text := text0.toList.filter (fun c => c ≠ ',')
    match amountTextParse text with
    | some (ds, fs, unit) =>
      let scale : Nat :=
        if unit = some '천' then 1000
        else if unit = some '만' then 10000
        else 1
      some ((digitsToNat (ds ++ fs) * scale) / 10 ^ fs.length)
    | none =>
      let cleaned := text.filter Char.isDigit
      if cleaned.isEmpty then none else some (digitsToNat cleaned)

/-! ## Ledger entries and `graph_helpers.py` -/

/-- The slice of a ledger row the dialogue engine reads (`id`, `date`,
`item`, `amount`; `note`/`created_at` are never consulted).  Amounts are
`Nat` since every amount flowing through the engine comes out of
`normalize_amount`. -/
structure Entry where
  id : Nat
  date : String
  item : String
  amount : Nat
  deriving Repr, DecidableEq

/-- One line of `format_entries`, 1-based index. -/
def formatEntryLine (i : Nat) (e : Entry) : String :=
  toString i ++ ") " ++ e.date ++ " " ++ e.item ++ " " ++
    toString e.amount ++ "원 (id:" ++ toString e.id ++ ")"

/-- The numbered lines of `format_entries`. -/
def formatEntriesLines : Nat → List Entry → List String
  | _, [] => []
  | i, e :: rest => formatEntryLine i e :: formatEntriesLines (i + 1) rest

/-- `format_entries(entries)` of `src/client/graph_helpers.py`. -/
def formatEntries (entries : List Entry) : String :=
  if entries.isEmpty then "내역이 없어요."
  else String.intercalate "\n" (formatEntriesLines 1 entries)

/-- `filter_entries_by_item(entries, item)` of `src/client/graph_helpers.py`:
whitespace-insensitive, case-insensitive substring filter. -/
def filterEntriesByItem (entries : List Entry) (item : Option String) :
    List Entry :=
  match truthyStr item with
  | none => entries
  | some it =>
    let needle := pyLower (stripWs it)
    if needle = "" then entries
    else entries.filter (fun e => strContains (pyLower (stripWs e.item)) needle)

/-! ## Pending state (`src/client/session_state.py`, `graph_state.py`) -/

/-- `{"token": ..., "prompt": ...}`. -/
structure PendingConfirm where
  token : String
  prompt : String
  deriving Repr, DecidableEq

/-- `{"token": ..., "action": "delete", "entry_id": ...}`. -/
structure PendingAction where
  token : String
  action : String
  entryId : Nat
  deriving Repr, DecidableEq

/-- `{"action": ..., "amount"?: ..., "candidates": ...}` (the `amount`
key is absent for delete selections, modelled as `none`). -/
structure PendingSelection where
  action : String
  amount : Option Nat
  candidates : List Entry
  deriving Repr, DecidableEq

/-- A session's pending-state triple (`PendingSessionState`). -/
structure PendingTriple where
  confirm : Option PendingConfirm := none
  action : Option PendingAction := none
  selection : Option PendingSelection := none
  deriving Repr, DecidableEq

/-- The all-clear triple. -/
def cleanTriple : PendingTriple := {}

/-- A node's returned partial state dict.  An outer `none` means the key
is absent from the returned dict (LangGraph then keeps the input channel
value); `some v` means the key is set to `v`. -/
structure NodeResult where
  reply : Option String := none
  pendingConfirm : Option (Option PendingConfirm) := none
  pendingAction : Option (Option PendingAction) := none
  pendingSelection : Option (Option PendingSelection) := none
  deriving Repr, DecidableEq

/-- `cleanup_state()` of `src/client/graph_helpers.py`: all three pending
keys present and set to `None`. -/
def cleanupState : NodeResult :=
  { pendingConfirm := some none, pendingAction := some none,
    pendingSelection := some none }

/-- `{"reply": r, **base}`. -/
def withReply (r : String) (base : NodeResult) : NodeResult :=
  { base with reply := some r }

/-- LangGraph channel merge: a key present in the node output overwrites
the input channel, an absent key leaves it unchanged. -/
def applyResult (t : PendingTriple) (r : NodeResult) : PendingTriple :=
  { confirm := r.pendingConfirm.getD t.confirm,
    action := r.pendingAction.getD t.action,
    selection := r.pendingSelection.getD t.selection }

/-! ## Ledger collaborator environment and MCP dispatch

Ledger calls are an oracle; `Option` results with outer `none` model a
raised exception (`_invoke_tool` catches it and substitutes its
`default`).  `insertEntry` is additionally indexed by the per-turn call
number so that successive bulk inserts may behave differently. -/

/-- Trace of the ledger-mutating/reading tool invocations of one turn. -/
inductive Effect where
  | getLast
  | listEntries (entryDate : Option String) (limit : Nat)
  | sumEntries (entryDate : Option String)
  | insertEntry (callIdx : Nat) (entryDate : String) (item : String) (amount : Nat)
  | updateAmount (entryId : Nat) (newAmount : Nat)
  | deleteEntry (entryId : Nat)
  | readResource
  deriving Repr, DecidableEq

/-- Oracle responses of the ledger collaborator. -/
structure LedgerEnv where
  getLast : Option (Option Entry)
  listEntries : Option String → Nat → Option (List Entry)
  sumEntries : Option String → Option Int
  insertEntry : Nat → String → String → Nat → Option Entry
  updateAmount : Nat → Nat → Option (Option Entry)
  deleteEntry : Nat → Option Bool

/-- A Python value that may be an absent key, an explicit `None`, or a
value (needed to model `dict.setdefault` faithfully). -/
inductive PyOpt (α : Type) where
  | absent
  | pynull
  | val (a : α)
  deriving Repr, DecidableEq

/-- `dict.get(key)`: absent and `None` both read as `none`. -/
def PyOpt.toOption {α : Type} : PyOpt α → Option α
  | .val a => some a
  | _ => none

/-- `dict.setdefault(key, d)`: only an absent key gets the default. -/
def PyOpt.setdefault {α : Type} (d : α) : PyOpt α → PyOpt α
  | .absent => .val d
  | o => o

/-- The argument dict of an LLM-issued tool call (the fields any of the
seven MCP handlers may read). -/
structure ToolArgsDict where
  entryId : PyOpt Nat := .absent
  entryDate : PyOpt String := .absent
  limit : PyOpt Nat := .absent
  newAmount : PyOpt Nat := .absent
  itemField : PyOpt String := .absent
  amountField : PyOpt Nat := .absent
  deriving Repr, DecidableEq

/-- One tool call as returned by `llm.chat_with_tools`: a name and the
`arguments` payload (`none` = not a dict, coerced to `{}`). -/
structure RawToolCall where
  name : String
  args : Option ToolArgsDict
  deriving Repr, DecidableEq

/-- Result shapes of `mcp_client.invoke`. -/
inductive McpResult where
  | entries (l : List Entry)
  | total (n : Int)
  | entryOpt (e : Option Entry)
  | boolRes (b : Bool)
  | textRes (s : String)
  deriving Repr, DecidableEq

/-- `LedgerMCPServer.execute` + `normalize_tool_result`: dispatch a named
tool call with validated arguments.  Returns the effect trace and the
result; `none` models a raised exception (unsupported tool, argument
validation error, or a ledger failure). -/
def mcpInvoke (env : LedgerEnv) (rc : RawToolCall) :
    List Effect × Option McpResult :=
  let args := rc.args.getD {}
  if rc.name = "insert_ledger_entry" then
    match args.entryDate, args.itemField, args.amountField with
    | .val d, .val it, .val a =>
      ([.insertEntry 0 d it a],
        match env.insertEntry 0 d it a with
        | some e => some (.entryOpt (some e))
        | none => none)
    | _, _, _ => ([], none)
  else if rc.name = "list_ledger_entries" then
    match args.limit with
    | .pynull => ([], none)
    | lim =>
      let limit := (lim.toOption).getD 10
      let d := args.entryDate.toOption
      ([.listEntries d limit],
        match env.listEntries d limit with
        | some l => some (.entries l)
        | none => none)
  else if rc.name = "sum_ledger_entries" then
    let d := args.entryDate.toOption
    ([.sumEntries d],
      match env.sumEntries d with
      | some n => some (.total n)
      | none => none)
  else if rc.name = "get_last_ledger_entry" then
    ([.getLast],
      match env.getLast with
      | some e => some (.entryOpt e)
      | none => none)
  else if rc.name = "update_ledger_entry_amount" then
    match args.entryId, args.newAmount with
    | .val i, .val a =>
      ([.updateAmount i a],
        match env.updateAmount i a with
        | some (some e) => some (.entryOpt (some e))
        | _ => none)
    | _, _ => ([], none)
  else if rc.name = "delete_ledger_entry" then
    match args.entryId with
    | .val i =>
      ([.deleteEntry i],
        match env.deleteEntry i with
        | some b => some (.boolRes b)
        | none => none)
    | _ => ([], none)
  else if rc.name = "get_read_resource_context" then
    ([.readResource], some (.textRes ""))
  else ([], none)

/-! ## Turn environment and `_try_read_via_mcp_tool_call` -/

/-- All per-turn oracles: ledger responses, today's date, the fresh
confirmation token (`uuid.uuid4().hex`), the NLU oracle, the batch NLU
oracle, and the tool-call the LLM returns on the read path (`none`
models a `FakeLLM`, a missing `chat_with_tools`, an exception, or an
unusable `tool_calls` payload). -/
structure TurnEnv where
  ledger : LedgerEnv
  today : Date
  freshToken : String
  nlu : String → Option IntentExtraction
  batchOut : Option (List (Option IntentExtraction))
  readToolCall : Option RawToolCall

/-- The `setdefault` calls of `_try_read_via_mcp_tool_call` on the two
recognized read tools. -/
def applyDefaults (rc : RawToolCall) (entryDate : String) : RawToolCall :=
  if rc.name = "list_ledger_entries" then
    { rc with args := rc.args.map (fun a =>
        { a with entryDate := a.entryDate.setdefault entryDate,
                 limit := a.limit.setdefault 10 }) }
  else if rc.name = "sum_ledger_entries" then
    { rc with args := rc.args.map (fun a =>
        { a with entryDate := a.entryDate.setdefault entryDate }) }
  else rc

/-- `LedgerGraphNodes._try_read_via_mcp_tool_call(state)`.  Note that the
LLM-returned tool name is dispatched by `mcp_client.invoke` *without*
being checked against the advertised read-only schemas; only the reply
handling afterwards is restricted to the three read tools. -/
def tryReadViaMcpToolCall (env : TurnEnv) (intentDate : Option String) :
    Option NodeResult × List Effect :=
  match env.readToolCall with
  | none => (none, [])
  | some rc0 =>
    let entryDate := (truthyStr intentDate).getD (isoOfDate env.today)
    let rc := applyDefaults rc0 entryDate
    let (effs, res) := mcpInvoke env.ledger rc
    match res with
    | none => (none, effs)
    | some r =>
      if rc.name = "list_ledger_entries" then
        match r with
        | .entries l => (some (withReply (formatEntries l) cleanupState), effs)
        | _ => (none, effs)
      else if rc.name = "sum_ledger_entries" then
        let argDate : Option String :=
          match rc.args with
          | some a => a.entryDate.toOption
          | none => none
        let queryDate := (truthyStr argDate).getD entryDate
        match r with
        | .total n =>
          (some (withReply (queryDate ++ " 총합은 " ++ toString n ++ "원이에요.")
            cleanupState), effs)
        | _ => (none, effs)
      else if rc.name = "get_last_ledger_entry" then
        match r with
        | .entryOpt none =>
          (some (withReply "최근 내역이 없어요." cleanupState), effs)
        | .entryOpt (some e) =>
          (some (withReply ("최근 내역: " ++ e.date ++ " " ++ e.item ++ " " ++
            toString e.amount ++ "원") cleanupState), effs)
        | _ => (none, effs)
      else (none, effs)

/-! ## Graph nodes (`src/client/graph_nodes.py`) -/

/-- The fixed affirmative vocabulary `self.yes`. -/
def yesVocab : List String :=
  ["yes", "y", "네", "응", "확인", "진행", "삭제해", "해줘"]

/-- The fixed negative vocabulary `self.no`. -/
def noVocab : List String :=
  ["no", "n", "아니", "취소", "안해", "안 할래"]

/-- `re.search(r"(\d+)", msg)`: numeric value of the first digit run. -/
def searchFirstNat : List Char → Option Nat
  | [] => none
  | c :: rest =>
    if c.isDigit then some (digitsToNat ((c :: rest).takeWhile Char.isDigit))
    else searchFirstNat rest

/-- `empty_message_node`: only a reply, no pending keys. -/
def emptyMessageNode : NodeResult :=
  { reply := some "메시지가 비어 있어요." }

/-- `confirm_decision_node`. -/
def confirmDecisionNode (env : TurnEnv) (t : PendingTriple) (message : String) :
    NodeResult × List Effect :=
  match t.action, t.confirm with
  | some pa, some pc =>
    let msg := pyLower (pyStrip message)
    if yesVocab.contains msg then
      if pa.action = "delete" then
        let ok := (env.ledger.deleteEntry pa.entryId).getD false
        (withReply (if ok then "삭제 완료했어요."
          else "삭제 처리 중 오류가 발생했어요.") cleanupState,
          [.deleteEntry pa.entryId])
      else (withReply "지원하지 않는 확인 작업이에요." cleanupState, [])
    else if noVocab.contains msg then
      (withReply "취소했어요." cleanupState, [])
    else
      ({ reply := some "확인/취소 중 하나로 답해주세요. (yes/no)",
         pendingConfirm := some (some pc), pendingAction := some (some pa),
         pendingSelection := some t.selection }, [])
  | _, _ => (withReply "확인할 항목이 없어요." cleanupState, [])

/-- `selection_decision_node`. -/
def selectionDecisionNode (env : TurnEnv) (t : PendingTriple)
    (message : String) : NodeResult × List Effect :=
  match t.selection with
  | none => (withReply "선택할 항목이 없어요." cleanupState, [])
  | some sel =>
    let msg := pyStrip message
    let msgL := pyLower msg
    let candidates := sel.candidates
    if strContains msg "취소" ∨ msgL = "cancel" ∨ msgL = "no" ∨ msgL = "n" then
      (withReply "선택을 취소했어요." cleanupState, [])
    else
      match searchFirstNat msg.toList with
      | none =>
        ({ reply := some ("수정/삭제할 항목의 id를 보내주세요.\n" ++
             formatEntries candidates),
           pendingSelection := some (some sel),
           pendingConfirm := some t.confirm,
           pendingAction := some t.action }, [])
      | some chosenId =>
        match candidates.find? (fun c => c.id = chosenId) with
        | none =>
          ({ reply := some ("후보 목록에 없는 id예요. 다시 골라주세요.\n" ++
               formatEntries candidates),
             pendingSelection := some (some sel),
             pendingConfirm := some t.confirm,
             pendingAction := some t.action }, [])
        | some chosen =>
          if sel.action = "update" then
            match sel.amount with
            | none =>
              (withReply "바꿀 금액이 없어요. 다시 말씀해 주세요." cleanupState, [])
            | some amount =>
              let updated := (env.ledger.updateAmount chosenId amount).join
              (withReply (match updated with
                | none => "수정 처리 중 오류가 발생했어요."
                | some u => "수정했어요: " ++ u.date ++ " " ++ u.item ++ " " ++
                    toString u.amount ++ "원") cleanupState,
                [.updateAmount chosenId amount])
          else if sel.action = "delete" then
            let token := env.freshToken
            ({ reply := some ("삭제할까요? " ++ chosen.date ++ " " ++
                 chosen.item ++ " " ++ toString chosen.amount ++ "원"),
               pendingConfirm := some (some ⟨token, "삭제 확인"⟩),
               pendingAction := some (some ⟨token, "delete", chosenId⟩),
               pendingSelection := some none }, [])
          else (withReply "알 수 없는 선택 작업이에요." cleanupState, [])

/-- The loop over bulk candidates in `run_insert_node`: insert each in
order, abort on the first failure with the fixed save-error reply. -/
def runBulkInserts (env : TurnEnv) :
    List Candidate → Nat → List Entry → NodeResult × List Effect
  | [], _, savedRev =>
    let saved := savedRev.reverse
    (withReply (toString saved.length ++ "건 저장했어요.\n" ++
      String.intercalate "\n" (saved.map (fun e =>
        e.date ++ " " ++ e.item ++ " " ++ toString e.amount ++ "원")))
      cleanupState, [])
  | c :: rest, idx, savedRev =>
    match env.ledger.insertEntry idx c.date c.item c.amount with
    | none =>
      (withReply "저장 처리 중 오류가 발생했어요." cleanupState,
        [.insertEntry idx c.date c.item c.amount])
    | some e =>
      let next := runBulkInserts env rest (idx + 1) (e :: savedRev)
      (next.1, .insertEntry idx c.date c.item c.amount :: next.2)

/-- The `entry_date` default chain at the top of `run_insert_node`:
`state.get("intent_date") or extract_date_from_message(message) or
today_iso()`. -/
def insertEntryDateOf (today : Date) (message : String) (parsed : Intent) :
    String :=
  match truthyStr parsed.date with
  | some d => d
  | none =>
    match truthyStr (extractDateFromMessage today message) with
    | some d => d
    | none => isoOfDate today

/-- `run_insert_node`. -/
def runInsertNode (env : TurnEnv) (message : String) (parsed : Intent) :
    NodeResult × List Effect :=
  let entryDate := insertEntryDateOf env.today message parsed
  let candidates :=
    extractBulkInsertCandidates env.today message (some entryDate)
      env.batchOut env.nlu
  if 2 ≤ candidates.length then runBulkInserts env candidates 0 []
  else
    let adopt := candidates.length = 1 ∧
      (parsed.amount = none ∨ (truthyStr parsed.item).isNone)
    let amount := if adopt then (candidates.head?.map (·.amount)) else parsed.amount
    let item := if adopt then (candidates.head?.map (·.item)) else parsed.item
    let entryDate' := if adopt then ((candidates.head?.map (·.date)).getD entryDate)
      else entryDate
    match amount with
    | none => (withReply "금액을 알려주세요." cleanupState, [])
    | some a =>
      match truthyStr item with
      | none => (withReply "항목(상품/가게명)을 알려주세요." cleanupState, [])
      | some it =>
        match env.ledger.insertEntry 0 entryDate' it a with
        | none =>
          (withReply "저장 처리 중 오류가 발생했어요." cleanupState,
            [.insertEntry 0 entryDate' it a])
        | some e =>
          (withReply ("저장했어요: " ++ e.date ++ " " ++ e.item ++ " " ++
            toString e.amount ++ "원") cleanupState,
            [.insertEntry 0 entryDate' it a])

/-- `run_select_node`. -/
def runSelectNode (env : TurnEnv) (intentDate : Option String) :
    NodeResult × List Effect :=
  let direct := tryReadViaMcpToolCall env intentDate
  match direct.1 with
  | some r => (r, direct.2)
  | none =>
    let entryDate := (truthyStr intentDate).getD (isoOfDate env.today)
    let effs := direct.2 ++ [.listEntries (some entryDate) 10]
    match env.ledger.listEntries (some entryDate) 10 with
    | none => (withReply "내역 조회 중 오류가 발생했어요." cleanupState, effs)
    | some l => (withReply (formatEntries l) cleanupState, effs)

/-- `run_sum_node`. -/
def runSumNode (env : TurnEnv) (intentDate : Option String) :
    NodeResult × List Effect :=
  let direct := tryReadViaMcpToolCall env intentDate
  match direct.1 with
  | some r => (r, direct.2)
  | none =>
    let entryDate := (truthyStr intentDate).getD (isoOfDate env.today)
    let effs := direct.2 ++ [.sumEntries (some entryDate)]
    match env.ledger.sumEntries (some entryDate) with
    | none => (withReply "합계 계산 중 오류가 발생했어요." cleanupState, effs)
    | some total =>
      (withReply (entryDate ++ " 총합은 " ++ toString total ++ "원이에요.")
        cleanupState, effs)

/-- Tail of `run_update_prepare_node` after the candidate set is known:
auto-apply a singleton, otherwise emit a pending selection. -/
def updateApplyOrSelect (env : TurnEnv) (amount : Nat) (cs : List Entry) :
    NodeResult × List Effect :=
  match cs with
  | [c] =>
    let updated := (env.ledger.updateAmount c.id amount).join
    (withReply (match updated with
      | none => "수정 처리 중 오류가 발생했어요."
      | some u => "수정했어요: " ++ u.date ++ " " ++ u.item ++ " " ++
          toString u.amount ++ "원") cleanupState,
      [.updateAmount c.id amount])
  | _ =>
    ({ reply := some ("어느 항목을 수정할까요? id를 알려주세요.\n" ++
         formatEntries cs),
       pendingSelection := some (some ⟨"update", some amount, cs⟩),
       pendingConfirm := some none, pendingAction := some none }, [])

/-- `run_update_prepare_node`. -/
def runUpdatePrepareNode (env : TurnEnv) (parsed : Intent) :
    NodeResult × List Effect :=
  match parsed.amount with
  | none => (withReply "바꿀 금액을 알려주세요." cleanupState, [])
  | some amount =>
    if parsed.target = some "last" then
      match (env.ledger.getLast).join with
      | none => (withReply "최근 내역이 없어요." cleanupState, [.getLast])
      | some entry =>
        let updated := (env.ledger.updateAmount entry.id amount).join
        (withReply (match updated with
          | none => "수정 처리 중 오류가 발생했어요."
          | some u => "수정했어요: " ++ u.date ++ " " ++ u.item ++ " " ++
              toString u.amount ++ "원") cleanupState,
          [.getLast, .updateAmount entry.id amount])
    else if (truthyStr parsed.item).isSome ∨ (truthyStr parsed.date).isSome then
      match env.ledger.listEntries parsed.date 100 with
      | none =>
        (withReply "내역 조회 중 오류가 발생했어요." cleanupState,
          [.listEntries parsed.date 100])
      | some l =>
        let candidates := filterEntriesByItem l parsed.item
        if candidates.isEmpty then
          (withReply "조건에 맞는 수정 대상이 없어요." cleanupState,
            [.listEntries parsed.date 100])
        else
          let next := updateApplyOrSelect env amount candidates
          (next.1, .listEntries parsed.date 100 :: next.2)
    else
      match (env.ledger.getLast).join with
      | none => (withReply "최근 내역이 없어요." cleanupState, [.getLast])
      | some last =>
        let next := updateApplyOrSelect env amount [last]
        (next.1, .getLast :: next.2)

/-- Tail of `run_delete_prepare_node` after the candidate set is known:
a singleton mints a token and stores the confirmation pair (never
deleting), otherwise a pending selection is emitted. -/
def deleteApplyOrSelect (env : TurnEnv) (cs : List Entry) :
    NodeResult × List Effect :=
  match cs with
  | [entry] =>
    let token := env.freshToken
    ({ reply := some ("삭제할까요? " ++ entry.date ++ " " ++ entry.item ++
         " " ++ toString entry.amount ++ "원"),
       pendingConfirm := some (some ⟨token, "삭제 확인"⟩),
       pendingAction := some (some ⟨token, "delete", entry.id⟩),
       pendingSelection := some none }, [])
  | _ =>
    ({ reply := some ("어느 항목을 삭제할까요? id를 알려주세요.\n" ++
         formatEntries cs),
       pendingSelection := some (some ⟨"delete", none, cs⟩),
       pendingConfirm := some none, pendingAction := some none }, [])

/-- `run_delete_prepare_node`. -/
def runDeletePrepareNode (env : TurnEnv) (parsed : Intent) :
    NodeResult × List Effect :=
  if parsed.target = some "last" then
    match (env.ledger.getLast).join with
    | none => (withReply "삭제할 내역이 없어요." cleanupState, [.getLast])
    | some entry =>
      let next := deleteApplyOrSelect env [entry]
      (next.1, .getLast :: next.2)
  else if (truthyStr parsed.item).isSome ∨ (truthyStr parsed.date).isSome then
    match env.ledger.listEntries parsed.date 100 with
    | none =>
      (withReply "내역 조회 중 오류가 발생했어요." cleanupState,
        [.listEntries parsed.date 100])
    | some l =>
      let candidates := filterEntriesByItem l parsed.item
      if candidates.isEmpty then
        (withReply "조건에 맞는 삭제 대상이 없어요." cleanupState,
          [.listEntries parsed.date 100])
      else
        let next := deleteApplyOrSelect env candidates
        (next.1, .listEntries parsed.date 100 :: next.2)
  else
    match (env.ledger.getLast).join with
    | none => (withReply "삭제할 내역이 없어요." cleanupState, [.getLast])
    | some last =>
      let next := deleteApplyOrSelect env [last]
      (next.1, .getLast :: next.2)

/-- `run_unknown_node`. -/
def runUnknownNode : NodeResult × List Effect :=
  (withReply "무슨 뜻인지 잘 모르겠어요." cleanupState, [])

/-! ## The dialogue router (`build_graph` wiring + `route_from_entry`) -/

/-- Outcome of one graph invocation: the reply (`result.get("reply", "")`),
the merged pending-state channels, and the ledger effect trace. -/
structure TurnOutcome where
  reply : String
  pending : PendingTriple
  effects : List Effect
  deriving Repr, DecidableEq

/-- One full turn of the compiled graph: `route_from_entry` then the
selected node (with `extract_intent_node` + `route_intent` on the
extraction path), channels merged LangGraph-style. -/
def runTurn (env : TurnEnv) (t : PendingTriple) (message : String) :
    TurnOutcome :=
  if pyStrip message = "" then
    ⟨emptyMessageNode.reply.getD "", applyResult t emptyMessageNode, []⟩
  else if t.confirm.isSome ∧ t.action.isSome then
    let (r, effs) := confirmDecisionNode env t message
    ⟨r.reply.getD "", applyResult t r, effs⟩
  else if t.selection.isSome then
    let (r, effs) := selectionDecisionNode env t message
    ⟨r.reply.getD "", applyResult t r, effs⟩
  else
    let parsed := extractIntent env.today message (env.nlu message)
    let step :=
      if parsed.intent = "insert" then runInsertNode env message parsed
      else if parsed.intent = "select" then runSelectNode env parsed.date
      else if parsed.intent = "sum" then runSumNode env parsed.date
      else if parsed.intent = "update" then runUpdatePrepareNode env parsed
      else if parsed.intent = "delete" then runDeletePrepareNode env parsed
      else runUnknownNode
    ⟨step.1.reply.getD "", applyResult t step.1, step.2⟩

/-! ## The two turn-taking endpoints (`src/client/main.py`) -/

/-- The `/chat` endpoint `handle_message`: read the session's pending
triple, invoke the graph, store the resulting triple back. -/
def handleMessage (env : TurnEnv) (t : PendingTriple) (message : String) :
    TurnOutcome :=
  runTurn env t message

/-- The `/confirm` endpoint `handle_confirmation`: with no pending
confirmation it replies "확인할 항목이 없어요." without touching the
session; with a mismatched token it replies "확인 토큰이 유효하지
않아요." keeping the pending state; otherwise the decision is run
through the graph like a message and the session is updated. -/
def handleConfirmation (env : TurnEnv) (t : PendingTriple)
    (token decision : String) : TurnOutcome :=
  match t.confirm with
  | none => ⟨"확인할 항목이 없어요.", t, []⟩
  | some pc =>
    if token ≠ pc.token then ⟨"확인 토큰이 유효하지 않아요.", t, []⟩
    else runTurn env t decision

/-- The session states reachable from a fresh session (the store creates
`PendingSessionState()` with all three fields `None`) through any
interleavings of `/chat` and `/confirm` turns. -/
inductive Reachable : PendingTriple → Prop where
  | init : Reachable cleanTriple
  | chat (env : TurnEnv) (t : PendingTriple) (msg : String) :
      Reachable t → Reachable (handleMessage env t msg).pending
  | confirm (env : TurnEnv) (t : PendingTriple) (token decision : String) :
      Reachable t → Reachable (handleConfirmation env t token decision).pending

/-- The node returned `{"reply": ..., **cleanup_state()}`. -/
def cleanupRes (r : NodeResult) : Prop :=
  ∃ rep, r = withReply rep cleanupState

/-- The node returned a confirmation pair with one shared token. -/
def pairRes (r : NodeResult) : Prop :=
  ∃ rep tok eid,
    r = { reply := some rep,
          pendingConfirm := some (some ⟨tok, "삭제 확인"⟩),
          pendingAction := some (some ⟨tok, "delete", eid⟩),
          pendingSelection := some none }

/-- The node returned a pending selection with the pair keys cleared. -/
def selRes (r : NodeResult) : Prop :=
  ∃ rep sel,
    r = { reply := some rep,
          pendingConfirm := some none,
          pendingAction := some none,
          pendingSelection := some (some sel) }

/-- A stored confirmation pair sharing one token, with no selection. -/
def pairTriple (tok : String) (eid : Nat) : PendingTriple :=
  { confirm := some ⟨tok, "삭제 확인"⟩,
    action := some ⟨tok, "delete", eid⟩,
    selection := none }

/-- A stored pending selection with no confirmation pair. -/
def selTriple (sel : PendingSelection) : PendingTriple :=
  { confirm := none, action := none, selection := some sel }

/-! ## Specification-side definitions and invariants -/

/-- The pending-state invariant claimed by the spec: a selection and a
confirmation are never outstanding together, and a `PendingAction` never
exists without a `PendingConfirmation` carrying the same token. -/
def PendingInv (t : PendingTriple) : Prop :=
  ¬ (t.selection.isSome ∧ t.confirm.isSome) ∧
    ∀ pa, t.action = some pa → ∃ pc, t.confirm = some pc ∧ pc.token = pa.token

/-- The bulk-insert splitter as the specification words it: candidates
exist only when the message has a currency marker, a comma, and at least
two non-empty trimmed segments; a resolved segment becomes a candidate
iff its intent is `insert` with a truthy item and a present amount; each
candidate's date is the first defined of segment date, whole-message
date, caller-supplied date, today. -/
def bulkCandidatesSpec (today : Date) (message : String)
    (entryDate : Option String) (resolved : List Intent) : List Candidate :=
  if strContains message "원" ∧ strContains message "," ∧
      2 ≤ (bulkSegments message).length then
    (resolved.filter (fun p =>
        decide (p.intent = "insert") && (truthyStr p.item).isSome &&
          p.amount.isSome)).map
      (fun p =>
        { date :=
            match truthyStr p.date with
            | some d => d
            | none =>
              match truthyStr (extractDateFromMessage today message) with
              | some d => d
              | none =>
                match truthyStr entryDate with
                | some d => d
                | none => isoOfDate today,
          item := (truthyStr p.item).getD "",
          amount := p.amount.getD 0 })
  else []

/-- Specification-side value of a digit string: the number read off the
digit characters of `s` in order (what stripping non-digits yields). -/
def digitsValue (s : String) : Nat :=
  digitsToNat (s.toList.filter Char.isDigit)

/-- Whether a string has any ASCII digit. -/
def hasDigit (s : String) : Bool :=
  s.toList.any Char.isDigit

/-- The head of the list, if any, fails the predicate (used to show
where `takeWhile`/`dropWhile` stop). -/
def headFails (p : Char → Bool) : List Char → Prop
  | [] => True
  | c :: _ => p c = false

/-! ## Concrete environments for witnesses and counterexamples -/

/-- A concrete ledger row. -/
def entryW : Entry := ⟨1, "2026-10-12", "커피", 5000⟩

/-- A ledger oracle where every operation succeeds. -/
def ledgerW : LedgerEnv :=
  { getLast := some (some entryW),
    listEntries := fun _ _ => some [entryW],
    sumEntries := fun _ => some 5000,
    insertEntry := fun _ d it a => some ⟨7, d, it, a⟩,
    updateAmount := fun i a => some (some ⟨i, "2026-10-12", "커피", a⟩),
    deleteEntry := fun _ => some true }

/-- A concrete NLU oracle. -/
def nluW : String → Option IntentExtraction := fun m =>
  if m = "그거 삭제해줘" then some ⟨"delete", none, none, none, some "last"⟩
  else if m = "내역 보여줘" then some ⟨"select", none, none, none, none⟩
  else none

/-- A concrete turn environment (no LLM tool-calling). -/
def envW : TurnEnv :=
  { ledger := ledgerW, today := ⟨2026, 10, 12⟩, freshToken := "tokw",
    nlu := nluW, batchOut := none, readToolCall := none }

/-- The same environment with an NLU that answers the read-path
tool-call prompt by naming the delete tool. -/
def envRead : TurnEnv :=
  { envW with readToolCall := some ⟨"delete_ledger_entry",
      some { entryId := .val 1 }⟩ }

/-- A ledger oracle whose first insert succeeds and second fails. -/
def ledgerB : LedgerEnv :=
  { ledgerW with insertEntry := fun i d it a =>
      if i = 0 then some ⟨11, d, it, a⟩ else none }

/-- An NLU oracle for the bulk-insert message and its two segments. -/
def nluB : String → Option IntentExtraction := fun m =>
  if m = "당근 4000원" then some ⟨"insert", none, some "당근", some 4000, none⟩
  else if m = "양상추 3000원" then
    some ⟨"insert", none, some "양상추", some 3000, none⟩
  else if m = "당근 4000원, 양상추 3000원" then
    some ⟨"insert", none, some "당근", some 4000, none⟩
  else none

/-- Environment for the bulk-insert failure scenario. -/
def envB : TurnEnv :=
  { ledger := ledgerB, today := ⟨2026, 10, 12⟩, freshToken := "tokb",
    nlu := nluB, batchOut := none, readToolCall := none }

/-! ## Result-shape lemmas

A node result is a *cleanup* (all pending keys cleared), a *pair*
(a freshly issued confirmation pair sharing one token, selection
cleared), or a *selection* (pending selection set, pair keys cleared);
re-prompts and the empty-message node leave the input channels intact. -/

theorem applyResult_cleanup (t : PendingTriple) (rep : String) :
    applyResult t (withReply rep cleanupState) = cleanTriple := rfl

theorem cleanupRes_withReply (rep : String) :
    cleanupRes (withReply rep cleanupState) := ⟨rep, rfl⟩

theorem runBulkInserts_cleanup (env : TurnEnv) :
    ∀ (cs : List Candidate) (idx : Nat) (sv : List Entry),
      cleanupRes (runBulkInserts env cs idx sv).1 := by
  intro cs
  induction cs with
  | nil => intro idx sv; exact ⟨_, rfl⟩
  | cons c rest ih =>
    intro idx sv
    unfold runBulkInserts
    cases h : env.ledger.insertEntry idx c.date c.item c.amount with
    | none => exact ⟨_, rfl⟩
    | some e => simpa using ih (idx + 1) (e :: sv)

theorem runInsertNode_cleanup (env : TurnEnv) (m : String) (p : Intent) :
    cleanupRes (runInsertNode env m p).1 := by
  unfold runInsertNode
  dsimp only
  split
  · exact runBulkInserts_cleanup env _ 0 []
  · split
    · exact ⟨_, rfl⟩
    · split
      · exact ⟨_, rfl⟩
      · split <;> exact ⟨_, rfl⟩

theorem tryRead_cleanup (env : TurnEnv) (d : Option String) (r : NodeResult) :
    (tryReadViaMcpToolCall env d).1 = some r → cleanupRes r := by
  unfold tryReadViaMcpToolCall
  split
  · intro h; cases h
  · dsimp only
    split
    · intro h; cases h
    · split
      · split
        · intro h; cases h; exact ⟨_, rfl⟩
        · intro h; cases h
      · split
        · split
          · intro h; cases h; exact ⟨_, rfl⟩
          · intro h; cases h
        · split
          · split
            · intro h; cases h; exact ⟨_, rfl⟩
            · intro h; cases h; exact ⟨_, rfl⟩
            · intro h; cases h
          · intro h; cases h

theorem runSelectNode_cleanup (env : TurnEnv) (d : Option String) :
    cleanupRes (runSelectNode env d).1 := by
  unfold runSelectNode
  dsimp only
  cases h : (tryReadViaMcpToolCall env d).1 with
  | some r => simp only [h]; exact tryRead_cleanup env d r h
  | none => simp only [h]; split <;> exact ⟨_, rfl⟩

theorem runSumNode_cleanup (env : TurnEnv) (d : Option String) :
    cleanupRes (runSumNode env d).1 := by
  unfold runSumNode
  dsimp only
  cases h : (tryReadViaMcpToolCall env d).1 with
  | some r => simp only [h]; exact tryRead_cleanup env d r h
  | none => simp only [h]; split <;> exact ⟨_, rfl⟩

theorem updateApplyOrSelect_shape (env : TurnEnv) (amount : Nat)
    (cs : List Entry) :
    cleanupRes (updateApplyOrSelect env amount cs).1 ∨
      selRes (updateApplyOrSelect env amount cs).1 := by
  unfold updateApplyOrSelect
  split
  · exact Or.inl ⟨_, rfl⟩
  · exact Or.inr ⟨_, _, rfl⟩

theorem runUpdatePrepareNode_shape (env : TurnEnv) (p : Intent) :
    cleanupRes (runUpdatePrepareNode env p).1 ∨
      selRes (runUpdatePrepareNode env p).1 := by
  unfold runUpdatePrepareNode
  split
  · exact Or.inl ⟨_, rfl⟩
  · split
    · split
      · exact Or.inl ⟨_, rfl⟩
      · exact Or.inl ⟨_, rfl⟩
    · split
      · split
        · exact Or.inl ⟨_, rfl⟩
        · dsimp only
          split
          · exact Or.inl ⟨_, rfl⟩
          · simpa using updateApplyOrSelect_shape env _ _
      · split
        · exact Or.inl ⟨_, rfl⟩
        · simpa using updateApplyOrSelect_shape env _ _

theorem deleteApplyOrSelect_shape (env : TurnEnv) (cs : List Entry) :
    pairRes (deleteApplyOrSelect env cs).1 ∨
      selRes (deleteApplyOrSelect env cs).1 := by
  unfold deleteApplyOrSelect
  split
  · exact Or.inl ⟨_, _, _, rfl⟩
  · exact Or.inr ⟨_, _, rfl⟩

theorem runDeletePrepareNode_shape (env : TurnEnv) (p : Intent) :
    cleanupRes (runDeletePrepareNode env p).1 ∨
      pairRes (runDeletePrepareNode env p).1 ∨
      selRes (runDeletePrepareNode env p).1 := by
  unfold runDeletePrepareNode
  split
  · split
    · exact Or.inl ⟨_, rfl⟩
    · rcases deleteApplyOrSelect_shape env _ with h | h
      · exact Or.inr (Or.inl (by simpa using h))
      · exact Or.inr (Or.inr (by simpa using h))
  · split
    · split
      · exact Or.inl ⟨_, rfl⟩
      · dsimp only
        split
        · exact Or.inl ⟨_, rfl⟩
        · rcases deleteApplyOrSelect_shape env _ with h | h
          · exact Or.inr (Or.inl (by simpa using h))
          · exact Or.inr (Or.inr (by simpa using h))
    · split
      · exact Or.inl ⟨_, rfl⟩
      · rcases deleteApplyOrSelect_shape env _ with h | h
        · exact Or.inr (Or.inl (by simpa using h))
        · exact Or.inr (Or.inr (by simpa using h))

theorem applyResult_pairRes {r : NodeResult} (t : PendingTriple)
    (h : pairRes r) : ∃ tok eid, applyResult t r = pairTriple tok eid := by
  obtain ⟨rep, tok, eid, rfl⟩ := h
  exact ⟨tok, eid, rfl⟩

theorem applyResult_selRes {r : NodeResult} (t : PendingTriple)
    (h : selRes r) : ∃ sel, applyResult t r = selTriple sel := by
  obtain ⟨rep, sel, rfl⟩ := h
  exact ⟨sel, rfl⟩

theorem applyResult_cleanupRes {r : NodeResult} (t : PendingTriple)
    (h : cleanupRes r) : applyResult t r = cleanTriple := by
  obtain ⟨rep, rfl⟩ := h
  rfl

/-- `confirm_decision_node` either clears everything or re-prompts with
the channels it read, leaving the merged state unchanged. -/
theorem confirmDecisionNode_applied (env : TurnEnv) (t : PendingTriple)
    (m : String) :
    applyResult t (confirmDecisionNode env t m).1 = cleanTriple ∨
      (applyResult t (confirmDecisionNode env t m).1 = t ∧
        (confirmDecisionNode env t m).1.reply =
          some "확인/취소 중 하나로 답해주세요. (yes/no)") := by
  unfold confirmDecisionNode
  split
  · dsimp only
    split
    · split
      · exact Or.inl rfl
      · exact Or.inl rfl
    · split
      · exact Or.inl rfl
      · rename_i pa pc h1 h2 _ _
        refine Or.inr ⟨?_, rfl⟩
        cases t
        simp only [applyResult, Option.getD_some]
        simp_all
  · exact Or.inl rfl

/-- `selection_decision_node` clears everything, transitions to a
confirmation pair, or re-prompts leaving the merged state unchanged. -/
theorem selectionDecisionNode_applied (env : TurnEnv) (t : PendingTriple)
    (m : String) :
    applyResult t (selectionDecisionNode env t m).1 = cleanTriple ∨
      (∃ tok eid,
        applyResult t (selectionDecisionNode env t m).1 = pairTriple tok eid) ∨
      (applyResult t (selectionDecisionNode env t m).1 = t ∧
        (∃ s, (selectionDecisionNode env t m).1.reply =
            some ("수정/삭제할 항목의 id를 보내주세요.\n" ++ s) ∨
          (selectionDecisionNode env t m).1.reply =
            some ("후보 목록에 없는 id예요. 다시 골라주세요.\n" ++ s))) := by
  unfold selectionDecisionNode
  split
  · exact Or.inl rfl
  · rename_i sel hsel
    dsimp only
    split
    · exact Or.inl rfl
    · split
      · refine Or.inr (Or.inr ⟨?_, ⟨_, Or.inl rfl⟩⟩)
        cases t
        simp only [applyResult, Option.getD_some]
        simp_all
      · split
        · refine Or.inr (Or.inr ⟨?_, ⟨_, Or.inr rfl⟩⟩)
          cases t
          simp only [applyResult, Option.getD_some]
          simp_all
        · split
          · split
            · exact Or.inl rfl
            · exact Or.inl rfl
          · split
            · exact Or.inr (Or.inl ⟨_, _, rfl⟩)
            · exact Or.inl rfl

/-- Master shape lemma: after any turn the pending triple is all-clear,
a freshly stored confirmation pair, a freshly stored selection, or
(empty-message and re-prompt replies only) exactly the input triple. -/
theorem runTurn_shape (env : TurnEnv) (t : PendingTriple) (msg : String) :
    (runTurn env t msg).pending = cleanTriple ∨
      (∃ tok eid, (runTurn env t msg).pending = pairTriple tok eid) ∨
      (∃ sel, (runTurn env t msg).pending = selTriple sel) ∨
      ((runTurn env t msg).pending = t ∧
        ((runTurn env t msg).reply = "메시지가 비어 있어요." ∨
          (runTurn env t msg).reply = "확인/취소 중 하나로 답해주세요. (yes/no)" ∨
          (∃ s, (runTurn env t msg).reply =
              "수정/삭제할 항목의 id를 보내주세요.\n" ++ s ∨
            (runTurn env t msg).reply =
              "후보 목록에 없는 id예요. 다시 골라주세요.\n" ++ s))) := by
  unfold runTurn
  split
  · exact Or.inr (Or.inr (Or.inr ⟨rfl, Or.inl rfl⟩))
  · split
    · rcases confirmDecisionNode_applied env t msg with h | ⟨h, hr⟩
      · exact Or.inl h
      · refine Or.inr (Or.inr (Or.inr ⟨h, Or.inr (Or.inl ?_)⟩))
        simp [hr]
    · split
      · rcases selectionDecisionNode_applied env t msg with h | h | ⟨h, s, hs⟩
        · exact Or.inl h
        · exact Or.inr (Or.inl h)
        · refine Or.inr (Or.inr (Or.inr ⟨h, Or.inr (Or.inr ⟨s, ?_⟩)⟩))
          rcases hs with hs | hs <;> simp [hs]
      · dsimp only
        split
        · exact Or.inl (applyResult_cleanupRes t (runInsertNode_cleanup env _ _))
        · split
          · exact Or.inl (applyResult_cleanupRes t (runSelectNode_cleanup env _))
          · split
            · exact Or.inl (applyResult_cleanupRes t (runSumNode_cleanup env _))
            · split
              · rcases runUpdatePrepareNode_shape env _ with h | h
                · exact Or.inl (applyResult_cleanupRes t h)
                · exact Or.inr (Or.inr (Or.inl (applyResult_selRes t h)))
              · split
                · rcases runDeletePrepareNode_shape env _ with h | h | h
                  · exact Or.inl (applyResult_cleanupRes t h)
                  · exact Or.inr (Or.inl (applyResult_pairRes t h))
                  · exact Or.inr (Or.inr (Or.inl (applyResult_selRes t h)))
                · exact Or.inl (applyResult_cleanupRes t ⟨_, rfl⟩)

/-! ## Claim C5 — NLU failure falls back to the deterministic extractor -/

/-- C5: whenever the NLU backend raises or its output yields no parseable
intent object (the oracle is `none`), `extract_intent` returns exactly
`minimal_fallback_intent(message)`; being a total function, nothing
propagates to the caller. -/
theorem extractIntent_fallback_on_failure (today : Date) (message : String) :
    extractIntent today message none = minimalFallbackIntent today message :=
  rfl

/-! ## Claim C7 — `normalize_amount` does no unit-word scaling -/

/-- C7 counterexample: `normalize_amount("3천원")` is `3`, not the
`3000` the claim's thousand-scaling would require. -/
theorem normalizeAmount_counterexample :
    normalizeAmount (some "3천원") = some 3 ∧ (3 : Nat) ≠ 3000 := by
  exact ⟨rfl, by decide⟩

/-- C7 amended: `normalize_amount` strips everything but digits with *no*
unit-word scaling (`"3천원"` yields 3) and returns `none` iff no digit
remains; it is total.  The thousand/ten-thousand scaling the spec
describes lives upstream in `normalize_amount_text` of the fake NLU
(`src/client/llm.py`), which maps `"3천원"` to 3000. -/
theorem normalizeAmount_amended (s : String) :
    (normalizeAmount (some s) = none ↔ hasDigit s = false) ∧
    (∀ n, normalizeAmount (some s) = some n → n = digitsValue s) ∧
    normalizeAmount none = none ∧
    normalizeAmount (some "3천원") = some 3 ∧
    normalizeAmountText "3천원" = some 3000 := by
  refine ⟨?_, ?_, rfl, rfl, rfl⟩
  · unfold normalizeAmount hasDigit
    dsimp only
    constructor
    · intro h
      split at h
      · rename_i hE
        rw [List.isEmpty_iff] at hE
        rw [List.any_eq_false]
        intro c hc
        have := List.filter_eq_nil_iff.mp hE c hc
        simpa using this
      · cases h
    · intro h
      rw [List.any_eq_false] at h
      have hE : s.toList.filter Char.isDigit = [] :=
        List.filter_eq_nil_iff.mpr (fun c hc => by simpa using h c hc)
      simp only [hE, List.isEmpty_nil, if_true]
  · intro n h
    unfold normalizeAmount at h
    dsimp only at h
    split at h
    · cases h
    · cases h
      rfl

/-- C7 witness: the amended characterization applied at `"3천원"`. -/
theorem normalizeAmount_amended_witness :
    normalizeAmount (some "3천원") = some (digitsValue "3천원") ∧
    digitsValue "3천원" = 3 := by
  refine ⟨(normalizeAmount_amended "3천원").2.1 3 rfl ▸ rfl, rfl⟩

/-! ## Claim C2 — the pending-state invariant holds in every reachable state -/

/-- C2: in every session state reachable through `/chat` and `/confirm`
turns, a pending selection and a pending confirmation never coexist, and
a `PendingAction` always has a matching-token `PendingConfirmation`. -/
theorem pendingInv_of_reachable (t : PendingTriple) (h : Reachable t) :
    PendingInv t := by
  induction h with
  | init => exact ⟨by decide, by intro pa hpa; cases hpa⟩
  | chat env t' msg ht ih =>
    show PendingInv (runTurn env t' msg).pending
    rcases runTurn_shape env t' msg with h | ⟨tok, eid, h⟩ | ⟨sel, h⟩ | ⟨h, _⟩ <;>
      rw [h]
    · exact ⟨by decide, by intro pa hpa; cases hpa⟩
    · refine ⟨by simp [pairTriple], ?_⟩
      intro pa hpa
      cases hpa
      exact ⟨⟨tok, "삭제 확인"⟩, rfl, rfl⟩
    · refine ⟨by simp [selTriple], ?_⟩
      intro pa hpa
      cases hpa
    · exact ih
  | confirm env t' token decision ht ih =>
    unfold handleConfirmation
    split
    · exact ih
    · split
      · exact ih
      · rcases runTurn_shape env t' decision with h | ⟨tok, eid, h⟩ | ⟨sel, h⟩ |
          ⟨h, _⟩ <;> rw [h]
        · exact ⟨by decide, by intro pa hpa; cases hpa⟩
        · refine ⟨by simp [pairTriple], ?_⟩
          intro pa hpa
          cases hpa
          exact ⟨⟨tok, "삭제 확인"⟩, rfl, rfl⟩
        · refine ⟨by simp [selTriple], ?_⟩
          intro pa hpa
          cases hpa
        · exact ih

/-- C2 witness: the invariant at the concrete reachable state produced
by a uniquely-resolved delete turn. -/
theorem pendingInv_of_reachable_witness :
    PendingInv (handleMessage envW cleanTriple "그거 삭제해줘").pending :=
  pendingInv_of_reachable _
    (Reachable.chat envW cleanTriple "그거 삭제해줘" Reachable.init)

/-! ## Claim C8 — terminal cleanup (corrected: the empty-message reply
keeps the pending triple) -/

/-- C8 counterexample: at the reachable state holding a pending
confirmation pair, an empty-message turn replies the empty-message text
— a terminal reply creating no pending state — yet the pending triple
stays the pair instead of `(none, none, none)`. -/
theorem emptyMessage_keepsPending_counterexample :
    (runTurn envW (runTurn envW cleanTriple "그거 삭제해줘").pending "  ").reply =
      "메시지가 비어 있어요." ∧
    (runTurn envW (runTurn envW cleanTriple "그거 삭제해줘").pending "  ").pending =
      (runTurn envW cleanTriple "그거 삭제해줘").pending ∧
    (runTurn envW cleanTriple "그거 삭제해줘").pending ≠ cleanTriple := by
  refine ⟨rfl, rfl, by decide⟩

/-- C8 amended: after any turn the pending triple is `(none, none, none)`
unless the turn's reply itself carries pending state — a freshly stored
confirmation pair or selection — or is the empty-message reply or one of
the re-prompt replies, which leave the input triple untouched. -/
theorem terminal_cleanup_amended (env : TurnEnv) (t : PendingTriple)
    (msg : String) :
    (runTurn env t msg).pending = cleanTriple ∨
      (∃ tok eid, (runTurn env t msg).pending = pairTriple tok eid) ∨
      (∃ sel, (runTurn env t msg).pending = selTriple sel) ∨
      ((runTurn env t msg).pending = t ∧
        ((runTurn env t msg).reply = "메시지가 비어 있어요." ∨
          (runTurn env t msg).reply = "확인/취소 중 하나로 답해주세요. (yes/no)" ∨
          (∃ s, (runTurn env t msg).reply =
              "수정/삭제할 항목의 id를 보내주세요.\n" ++ s ∨
            (runTurn env t msg).reply =
              "후보 목록에 없는 id예요. 다시 골라주세요.\n" ++ s))) :=
  runTurn_shape env t msg

/-! ## Claim C3 — `/confirm` token guard (corrected: a mismatched token
with a live pending confirmation gets the invalid-token reply, not
"nothing to confirm") -/

/-- Helper: a confirmation turn whose normalized decision is in the
yes- or no-vocabulary always clears the pending triple. -/
theorem runTurn_confirm_resolves (env : TurnEnv) (t : PendingTriple)
    (msg : String) (pc : PendingConfirm) (pa : PendingAction)
    (hc : t.confirm = some pc) (ha : t.action = some pa)
    (hv : yesVocab.contains (pyLower (pyStrip msg)) = true ∨
      noVocab.contains (pyLower (pyStrip msg)) = true) :
    (runTurn env t msg).pending = cleanTriple := by
  have hne : ¬ pyStrip msg = "" := by
    intro h0
    rw [h0] at hv
    rcases hv with hv | hv <;> exact absurd hv (by decide)
  unfold runTurn
  rw [if_neg hne, if_pos ⟨by simp [hc], by simp [ha]⟩]
  unfold confirmDecisionNode
  rw [ha, hc]
  dsimp only
  rcases hv with hv | hv
  · rw [if_pos hv]
    split <;> rfl
  · by_cases hy : yesVocab.contains (pyLower (pyStrip msg)) = true
    · rw [if_pos hy]
      split <;> rfl
    · rw [if_neg hy, if_pos hv]
      rfl

/-- C3 counterexample: with a live pending confirmation (token `"t"`)
and a mismatched supplied token `"u"`, the reply is the invalid-token
message, not the "nothing to confirm" message the claim requires. -/
theorem handleConfirmation_mismatch_counterexample :
    (pairTriple "t" 1).confirm = some ⟨"t", "삭제 확인"⟩ ∧
    ("u" : String) ≠ "t" ∧
    (handleConfirmation envW (pairTriple "t" 1) "u" "yes").reply =
      "확인 토큰이 유효하지 않아요." ∧
    (handleConfirmation envW (pairTriple "t" 1) "u" "yes").reply ≠
      "확인할 항목이 없어요." ∧
    (handleConfirmation envW (pairTriple "t" 1) "u" "yes").effects = [] := by
  refine ⟨rfl, by decide, rfl, by decide, rfl⟩

/-- C3 amended: `/confirm` with no pending confirmation replies "확인할
항목이 없어요." touching nothing; with a live pending confirmation and a
mismatched token it replies "확인 토큰이 유효하지 않아요.", preserving
the pending state; in both cases no stored action runs (empty effect
trace).  A matching token whose decision is in the yes/no vocabulary
clears the pending pair, so redeeming the same token again finds no
pending confirmation and gets "확인할 항목이 없어요." — single use. -/
theorem handleConfirmation_guard (env : TurnEnv) (t : PendingTriple)
    (token decision : String) :
    (t.confirm = none →
      handleConfirmation env t token decision = ⟨"확인할 항목이 없어요.", t, []⟩) ∧
    (∀ pc, t.confirm = some pc → token ≠ pc.token →
      handleConfirmation env t token decision =
        ⟨"확인 토큰이 유효하지 않아요.", t, []⟩) ∧
    (∀ pc pa, t.confirm = some pc → t.action = some pa → token = pc.token →
      (yesVocab.contains (pyLower (pyStrip decision)) = true ∨
        noVocab.contains (pyLower (pyStrip decision)) = true) →
      (handleConfirmation env t token decision).pending = cleanTriple ∧
      ∀ (env2 : TurnEnv) (token2 decision2 : String),
        handleConfirmation env2
            (handleConfirmation env t token decision).pending token2 decision2 =
          ⟨"확인할 항목이 없어요.", cleanTriple, []⟩) := by
  refine ⟨?_, ?_, ?_⟩
  · intro h
    unfold handleConfirmation
    rw [h]
  · intro pc hpc hne
    unfold handleConfirmation
    rw [hpc]
    dsimp only
    rw [if_pos hne]
  · intro pc pa hpc hpa htok hv
    have hclean : (handleConfirmation env t token decision).pending = cleanTriple := by
      unfold handleConfirmation
      rw [hpc]
      dsimp only
      rw [if_neg (by simp [htok])]
      exact runTurn_confirm_resolves env t decision pc pa hpc hpa hv
    refine ⟨hclean, ?_⟩
    intro env2 token2 decision2
    rw [hclean]
    unfold handleConfirmation
    rfl

/-- C3 witness: the guard applied at concrete states — an empty session,
a mismatching token against a live pair, and a successful redemption
followed by a second redemption of the same token. -/
theorem handleConfirmation_guard_witness :
    handleConfirmation envW cleanTriple "tokw" "yes" =
      ⟨"확인할 항목이 없어요.", cleanTriple, []⟩ ∧
    handleConfirmation envW (pairTriple "tokw" 1) "other" "yes" =
      ⟨"확인 토큰이 유효하지 않아요.", pairTriple "tokw" 1, []⟩ ∧
    (handleConfirmation envW (pairTriple "tokw" 1) "tokw" "yes").pending =
      cleanTriple ∧
    handleConfirmation envW
        (handleConfirmation envW (pairTriple "tokw" 1) "tokw" "yes").pending
        "tokw" "yes" =
      ⟨"확인할 항목이 없어요.", cleanTriple, []⟩ := by
  refine ⟨(handleConfirmation_guard envW cleanTriple "tokw" "yes").1 rfl,
    (handleConfirmation_guard envW (pairTriple "tokw" 1) "other" "yes").2.1
      ⟨"tokw", "삭제 확인"⟩ rfl (by decide), ?_, ?_⟩
  · exact ((handleConfirmation_guard envW (pairTriple "tokw" 1) "tokw"
      "yes").2.2 ⟨"tokw", "삭제 확인"⟩ ⟨"tokw", "delete", 1⟩ rfl rfl rfl
      (Or.inl (by decide))).1
  · exact ((handleConfirmation_guard envW (pairTriple "tokw" 1) "tokw"
      "yes").2.2 ⟨"tokw", "삭제 확인"⟩ ⟨"tokw", "delete", 1⟩ rfl rfl rfl
      (Or.inl (by decide))).2 envW "tokw" "yes"

/-! ## Claim C1 — deletion is confirmation-gated (code bug: the LLM read
path executes whatever tool the NLU names, including the delete tool) -/

/-- C1 evidence.  The uniquely-resolved delete turns behave as claimed:
via `target = "last"` and via a valid id chosen from a pending
selection, the turn performs no ledger delete, replies with a preview,
and stores a `{PendingConfirmation, PendingAction}` pair sharing the one
fresh token; the delete runs only on the following affirmative turn.
But the claim's "delete is invoked only in a later turn in which the
pending pair exists and the message is affirmative" is violated by
`_try_read_via_mcp_tool_call`: on a select turn with no pending state,
an NLU `tool_calls` answer naming `delete_ledger_entry` is dispatched
unchecked, deleting entry 1 with no confirmation. -/
theorem delete_confirmation_gate_evidence :
    runTurn envW cleanTriple "그거 삭제해줘" =
      ⟨"삭제할까요? 2026-10-12 커피 5000원", pairTriple "tokw" 1,
        [.getLast]⟩ ∧
    runTurn envW (selTriple ⟨"delete", none, [entryW]⟩) "1" =
      ⟨"삭제할까요? 2026-10-12 커피 5000원", pairTriple "tokw" 1, []⟩ ∧
    runTurn envW (pairTriple "tokw" 1) "yes" =
      ⟨"삭제 완료했어요.", cleanTriple, [.deleteEntry 1]⟩ ∧
    ((runTurn envRead cleanTriple "내역 보여줘").effects.contains
        (Effect.deleteEntry 1) = true ∧
      cleanTriple.confirm = none ∧ cleanTriple.action = none ∧
      yesVocab.contains (pyLower (pyStrip "내역 보여줘")) = false) := by
  exact ⟨rfl, rfl, rfl, rfl, rfl, rfl, by decide⟩

/-! ## Claim C10 — the bulk-insert path is not atomic -/

/-- Helper: if among the candidates handed to the bulk loop the first
`k` inserts succeed and the `(k+1)`-st fails, the loop stops with the
fixed save-error cleanup reply, having issued exactly the `k + 1`
insert calls in candidate order. -/
theorem runBulkInserts_fails (env : TurnEnv) :
    ∀ (cs : List Candidate) (idx : Nat) (sv : List Entry) (k : Nat)
      (hk : k < cs.length),
      (∀ i (hi : i < cs.length), i < k →
        (env.ledger.insertEntry (idx + i) (cs.get ⟨i, hi⟩).date
          (cs.get ⟨i, hi⟩).item (cs.get ⟨i, hi⟩).amount).isSome = true) →
      env.ledger.insertEntry (idx + k) (cs.get ⟨k, hk⟩).date
          (cs.get ⟨k, hk⟩).item (cs.get ⟨k, hk⟩).amount = none →
      runBulkInserts env cs idx sv =
        (withReply "저장 처리 중 오류가 발생했어요." cleanupState,
          ((cs.take (k + 1)).enumFrom idx).map
            (fun p => Effect.insertEntry p.1 p.2.date p.2.item p.2.amount)) := by
  intro cs
  induction cs with
  | nil => intro idx sv k hk; exact absurd hk (by simp)
  | cons c rest ih =>
    intro idx sv k hk hbefore hfail
    cases k with
    | zero =>
      rw [Nat.add_zero] at hfail
      unfold runBulkInserts
      rw [show (c :: rest).get ⟨0, hk⟩ = c from rfl] at hfail
      rw [hfail]
      rfl
    | succ k' =>
      have h0 : (env.ledger.insertEntry (idx + 0) c.date c.item
          c.amount).isSome = true := by
        have := hbefore 0 (by simp) (Nat.succ_pos k')
        simpa using this
      rw [Nat.add_zero] at h0
      obtain ⟨e, he⟩ := Option.isSome_iff_exists.mp h0
      unfold runBulkInserts
      rw [he]
      have hrec := ih (idx + 1) (e :: sv) k'
        (by simpa using Nat.lt_of_succ_lt_succ hk)
        (fun i hi hik => by
          have := hbefore (i + 1) (by simpa using Nat.succ_lt_succ hi)
            (Nat.succ_lt_succ hik)
          simpa [Nat.add_assoc, Nat.add_comm 1 i] using this)
        (by
          have := hfail
          simpa [Nat.add_assoc, Nat.add_comm 1 k'] using this)
      dsimp only
      rw [hrec]
      rfl

/-- C10: with two or more bulk candidates, the engine inserts them one
by one; if the `(k+1)`-st insert fails after `k` successes, the turn
replies the fixed save-error message with all pending state cleared,
the effect trace is exactly the `k + 1` insert calls in candidate order
— the earlier `k` inserted entries are not removed (no delete or other
compensating call appears) and the remaining candidates are never
attempted. -/
theorem bulkInsert_not_atomic (env : TurnEnv) (t : PendingTriple)
    (msg : String) (cs : List Candidate) (k : Nat)
    (hmsg : ¬ pyStrip msg = "")
    (ht : t = cleanTriple)
    (hint : (extractIntent env.today msg (env.nlu msg)).intent = "insert")
    (hcs : extractBulkInsertCandidates env.today msg
        (some (insertEntryDateOf env.today msg
          (extractIntent env.today msg (env.nlu msg))))
        env.batchOut env.nlu = cs)
    (h2 : 2 ≤ cs.length)
    (hk : k < cs.length)
    (hbefore : ∀ i (hi : i < cs.length), i < k →
      (env.ledger.insertEntry i (cs.get ⟨i, hi⟩).date
        (cs.get ⟨i, hi⟩).item (cs.get ⟨i, hi⟩).amount).isSome = true)
    (hfail : env.ledger.insertEntry k (cs.get ⟨k, hk⟩).date
        (cs.get ⟨k, hk⟩).item (cs.get ⟨k, hk⟩).amount = none) :
    runTurn env t msg =
      ⟨"저장 처리 중 오류가 발생했어요.", cleanTriple,
        ((cs.take (k + 1)).enumFrom 0).map
          (fun p => Effect.insertEntry p.1 p.2.date p.2.item p.2.amount)⟩ := by
  subst ht
  unfold runTurn
  rw [if_neg hmsg, if_neg (by simp [cleanTriple]), if_neg (by simp [cleanTriple])]
  dsimp only
  rw [if_pos hint]
  unfold runInsertNode
  dsimp only
  rw [hcs, if_pos h2]
  have hloop := runBulkInserts_fails env cs 0 [] k hk
    (fun i hi hik => by simpa using hbefore i hi hik)
    (by simpa using hfail)
  rw [hloop]
  rfl

/-- C10 witness: concrete two-candidate bulk message where the first
insert succeeds and the second fails. -/
theorem bulkInsert_not_atomic_witness :
    runTurn envB cleanTriple "당근 4000원, 양상추 3000원" =
      ⟨"저장 처리 중 오류가 발생했어요.", cleanTriple,
        [.insertEntry 0 "2026-10-12" "당근" 4000,
         .insertEntry 1 "2026-10-12" "양상추" 3000]⟩ := by
  have h := bulkInsert_not_atomic envB cleanTriple "당근 4000원, 양상추 3000원"
    [⟨"2026-10-12", "당근", 4000⟩, ⟨"2026-10-12", "양상추", 3000⟩] 1
    (by decide) rfl (by decide) (by decide) (by decide) (by decide)
    (by
      intro i hi hik
      have h0 : i = 0 := by omega
      subst h0
      show (envB.ledger.insertEntry 0 "2026-10-12" "당근" 4000).isSome = true
      decide)
    (by decide)
  simpa using h

/-! ## Claim C4 — the hallucination guard discards absent items -/

theorem listIsPre_iff {n h : List Char} :
    listIsPre n h = true ↔ ∃ t, h = n ++ t := by
  induction n generalizing h with
  | nil => simp [listIsPre]
  | cons a as ih =>
    cases h with
    | nil =>
      simp [listIsPre]
    | cons b bs =>
      simp only [listIsPre, Bool.and_eq_true, decide_eq_true_eq, ih,
        List.cons_append, List.cons.injEq]
      constructor
      · rintro ⟨rfl, t, rfl⟩
        exact ⟨t, rfl, rfl⟩
      · rintro ⟨t, rfl, rfl⟩
        exact ⟨rfl, t, rfl⟩

theorem listOccurs_iff {n h : List Char} :
    listOccurs n h = true ↔ ∃ a b, h = a ++ n ++ b := by
  induction h with
  | nil =>
    simp only [listOccurs, List.isEmpty_iff]
    constructor
    · rintro rfl
      exact ⟨[], [], rfl⟩
    · rintro ⟨a, b, hab⟩
      rcases List.append_eq_nil.mp (List.append_eq_nil.mp hab.symm).1 with ⟨_, h2⟩
      exact h2
  | cons c cs ih =>
    simp only [listOccurs, Bool.or_eq_true, listIsPre_iff, ih]
    constructor
    · rintro (⟨t, ht⟩ | ⟨a, b, rfl⟩)
      · exact ⟨[], t, by simpa using ht⟩
      · exact ⟨c :: a, b, rfl⟩
    · rintro ⟨a, b, hab⟩
      cases a with
      | nil =>
        exact Or.inl ⟨b, by simpa using hab⟩
      | cons x xs =>
        rcases List.cons.injEq .. ▸ hab with ⟨rfl, h2⟩
        exact Or.inr ⟨xs, b, by simpa using h2⟩

theorem listOccurs_nil (h : List Char) : listOccurs [] h = true := by
  cases h <;> simp [listOccurs, listIsPre]

theorem listOccurs_filter (p : Char → Bool) {n h : List Char}
    (hocc : listOccurs n h = true) :
    listOccurs (n.filter p) (h.filter p) = true := by
  rw [listOccurs_iff] at hocc ⊢
  obtain ⟨a, b, rfl⟩ := hocc
  exact ⟨a.filter p, b.filter p, by simp [List.filter_append]⟩

/-- Dropping leading whitespace does not change the whitespace-free form. -/
theorem filter_dropWhile_ws (l : List Char) :
    (l.dropWhile pyIsWs).filter (fun c => !pyIsWs c) =
      l.filter (fun c => !pyIsWs c) := by
  induction l with
  | nil => rfl
  | cons c cs ih =>
    by_cases hc : pyIsWs c = true
    · simp [List.dropWhile_cons, hc, List.filter_cons, ih]
    · simp [List.dropWhile_cons, hc, List.filter_cons]

/-- Stripping ends does not change the whitespace-free form. -/
theorem stripWsList_pyStripList (l : List Char) :
    stripWsList (pyStripList l) = stripWsList l := by
  unfold stripWsList pyStripList
  rw [List.filter_reverse, filter_dropWhile_ws, List.filter_reverse,
    List.reverse_reverse, filter_dropWhile_ws]

theorem stripWs_pyStrip (s : String) : stripWs (pyStrip s) = stripWs s :=
  congrArg String.mk (stripWsList_pyStripList s.toList)

/-- If the needle occurs in a string, its whitespace-free form occurs in
the string's whitespace-free form. -/
theorem strContains_stripWs {hay needle : String}
    (h : strContains hay needle = true) :
    strContains (stripWs hay) (stripWs needle) = true :=
  listOccurs_filter _ h

/-- C4: any NLU-claimed item whose whitespace-free form does not occur in
the whitespace-free message (and which does not occur literally either)
is discarded: the extracted intent carries `item = none`. -/
theorem hallucinationGuard_discards (today : Date) (message : String)
    (data : IntentExtraction) (item : String)
    (hitem : data.item = some item)
    (h1 : strContains (stripWs message) (stripWs item) = false)
    (h2 : strContains message item = false) :
    (extractIntent today message (some data)).item = none := by
  have hWsAll : ¬ stripWs item = "" := by
    intro h0
    rw [h0] at h1
    exact absurd (listOccurs_nil (stripWs message).toList) (by simpa using h1)
  have hmain : guardedItem message (some item) = none := by
    unfold guardedItem
    dsimp only
    have hi0 : ¬ item = "" := by
      intro h0
      exact hWsAll (by rw [h0]; rfl)
    simp only [truthyStr, hi0, ite_false]
    have hit : ¬ pyStrip item = "" := by
      intro h0
      apply hWsAll
      rw [← stripWs_pyStrip item, h0]
      rfl
    have hguard : isItemSubstring message (some (pyStrip item)) = false := by
      unfold isItemSubstring
      dsimp only
      rw [if_neg hit]
      split
      · rfl
      · rw [Bool.or_eq_false_iff]
        constructor
        · by_contra hb
          rw [Bool.not_eq_false] at hb
          have h3 := strContains_stripWs hb
          rw [stripWs_pyStrip, stripWs_pyStrip, stripWs_pyStrip] at h3
          rw [h1] at h3
          cases h3
        · rw [stripWs_pyStrip, stripWs_pyStrip, stripWs_pyStrip]
          exact h1
    simp [hit, hguard]
  unfold extractIntent
  dsimp only
  split
  all_goals
    split
    · rfl
    · show guardedItem message data.item = none
      rw [hitem]
      exact hmain

/-- C4 witness: a concrete hallucinated item is discarded. -/
theorem hallucinationGuard_discards_witness :
    strContains (stripWs "tea 3000원") (stripWs "coffee") = false ∧
    strContains "tea 3000원" "coffee" = false ∧
    (extractIntent ⟨2026, 10, 12⟩ "tea 3000원"
      (some ⟨"insert", none, some "coffee", some 3000, none⟩)).item = none := by
  refine ⟨by decide, by decide, ?_⟩
  exact hallucinationGuard_discards ⟨2026, 10, 12⟩ "tea 3000원"
    ⟨"insert", none, some "coffee", some 3000, none⟩ "coffee" rfl
    (by decide) (by decide)

/-! ## Claim C9 — the bulk-insert splitter matches its specification -/

/-- Helper: the candidate-collection loop equals a filter-then-map. -/
theorem filterMap_candidates (D : String) (l : List Intent) :
    (l.filterMap (fun parsed =>
      if parsed.intent = "insert" then
        match truthyStr parsed.item, parsed.amount with
        | some it, some a =>
          some (Candidate.mk ((truthyStr parsed.date).getD D) it a)
        | _, _ => none
      else none))
    = (l.filter (fun p =>
        decide (p.intent = "insert") && (truthyStr p.item).isSome &&
          p.amount.isSome)).map
        (fun p =>
          Candidate.mk
            (match truthyStr p.date with
             | some d => d
             | none => D)
            ((truthyStr p.item).getD "") (p.amount.getD 0)) := by
  induction l with
  | nil => rfl
  | cons p l ih =>
    rw [List.filterMap_cons, List.filter_cons]
    by_cases hins : p.intent = "insert"
    · cases hitem : truthyStr p.item with
      | none => simp [hins, hitem, ih]
      | some it =>
        cases hamt : p.amount with
        | none => simp [hins, hitem, hamt, ih]
        | some a =>
          simp [hins, hitem, hamt, Option.getD]
          refine ⟨?_, ih⟩
          cases truthyStr p.date <;> rfl
    · simp [hins, ih]

/-- C9: `extract_bulk_insert_candidates` equals the specification's
description — it triggers only with a currency marker, a comma, and at
least two non-empty trimmed segments; a resolved segment becomes a
candidate iff its intent is `insert` with a truthy item and a present
amount; each candidate's date is the first defined of segment date,
whole-message date, caller date, today. -/
theorem bulkSplitter_matches_spec (today : Date) (msg : String)
    (entryDate : Option String)
    (batchOut : Option (List (Option IntentExtraction)))
    (nlu : String → Option IntentExtraction) :
    extractBulkInsertCandidates today msg entryDate batchOut nlu =
      bulkCandidatesSpec today msg entryDate
        (resolvedSegments today (bulkSegments msg) batchOut nlu) ∧
    (extractBulkInsertCandidates today msg entryDate batchOut nlu ≠ [] →
      strContains msg "원" = true ∧ strContains msg "," = true ∧
        2 ≤ (bulkSegments msg).length) := by
  have heq : extractBulkInsertCandidates today msg entryDate batchOut nlu =
      bulkCandidatesSpec today msg entryDate
        (resolvedSegments today (bulkSegments msg) batchOut nlu) := by
    unfold extractBulkInsertCandidates bulkCandidatesSpec
    dsimp only
    split
    · rename_i hmark
      rw [if_neg (fun hc => hmark ⟨hc.1, hc.2.1⟩)]
    · rename_i hmark
      rw [Classical.not_not] at hmark
      split
      · rename_i hlen
        rw [if_neg (fun hc => absurd hc.2.2 (by omega))]
      · rename_i hlen
        rw [if_pos ⟨hmark.1, hmark.2, by omega⟩]
        exact filterMap_candidates _ _
  refine ⟨heq, ?_⟩
  intro hne
  rw [heq] at hne
  unfold bulkCandidatesSpec at hne
  by_cases hc : strContains msg "원" = true ∧ strContains msg "," = true ∧
      2 ≤ (bulkSegments msg).length
  · exact hc
  · rw [if_neg (by simpa using hc)] at hne
    exact absurd rfl hne

/-- C9 witness: the equality and the trigger condition at a concrete
two-segment bulk message that does produce candidates. -/
theorem bulkSplitter_matches_spec_witness :
    extractBulkInsertCandidates ⟨2026, 10, 12⟩ "당근 4000원, 양상추 3000원"
        (some "2026-10-12") none nluB =
      bulkCandidatesSpec ⟨2026, 10, 12⟩ "당근 4000원, 양상추 3000원"
        (some "2026-10-12")
        (resolvedSegments ⟨2026, 10, 12⟩
          (bulkSegments "당근 4000원, 양상추 3000원") none nluB) ∧
    strContains "당근 4000원, 양상추 3000원" "원" = true ∧
    strContains "당근 4000원, 양상추 3000원" "," = true ∧
    2 ≤ (bulkSegments "당근 4000원, 양상추 3000원").length := by
  have h := bulkSplitter_matches_spec ⟨2026, 10, 12⟩ "당근 4000원, 양상추 3000원"
    (some "2026-10-12") none nluB
  exact ⟨h.1, h.2 (by decide)⟩

/-! ## Claim C6 — calendar validation of the date normalizer

Support lemmas: where the scanners' `takeWhile`/`dropWhile` stop, what
characters a successful match forces into the input, and which
characters a matched input may consist of. -/

theorem takeWhile_stop {p : Char → Bool} :
    ∀ xs ys : List Char, (∀ c ∈ xs, p c = true) → headFails p ys →
      (xs ++ ys).takeWhile p = xs ∧ (xs ++ ys).dropWhile p = ys := by
  intro xs
  induction xs with
  | nil =>
    intro ys _ hys
    cases ys with
    | nil => exact ⟨rfl, rfl⟩
    | cons c cs =>
      simp only [headFails] at hys
      simp [List.takeWhile_cons, List.dropWhile_cons, hys]
  | cons x xs ih =>
    intro ys hxs hys
    have hx : p x = true := hxs x (by simp)
    have := ih ys (fun c hc => hxs c (by simp [hc])) hys
    simp [List.takeWhile_cons, List.dropWhile_cons, hx, this.1, this.2]

theorem headFails_ws_digit {w : List Char} {c : Char} {rest : List Char}
    (hw : ∀ x ∈ w, pyIsWs x = true) (hc : c.isDigit = false) :
    headFails Char.isDigit (w ++ c :: rest) := by
  cases w with
  | nil => exact hc
  | cons y ys =>
    have hy := hw y (by simp)
    show y.isDigit = false
    unfold pyIsWs at hy
    simp only [Bool.or_eq_true, decide_eq_true_eq] at hy
    rcases hy with (((((rfl | rfl) | rfl) | rfl) | rfl) | rfl) <;> decide

theorem mem_of_dropWhile {p : Char → Bool} {l : List Char} {a : Char}
    (h : a ∈ l.dropWhile p) : a ∈ l :=
  (List.dropWhile_sublist p).subset h

theorem mem_of_skipWs_eq {l rest : List Char} {c : Char}
    (h : skipWs l = c :: rest) : c ∈ l := by
  have : c ∈ skipWs l := by rw [h]; exact List.mem_cons_self c rest
  exact mem_of_dropWhile this

/-- A successful `daysAgoAt` forces a `'y'` into the input. -/
theorem daysAgoAt_mem {l : List Char} {n : Nat} (h : daysAgoAt l = some n) :
    'y' ∈ l := by
  unfold daysAgoAt at h
  dsimp only [takeDigits] at h
  split at h
  · cases h
  · split at h
    · rename_i rest2 heq
      have hy : 'y' ∈ skipWs (l.dropWhile Char.isDigit) := by
        rw [heq]; simp
      exact mem_of_dropWhile (mem_of_dropWhile hy)
    · cases h

theorem searchDaysAgo_mem {l : List Char} {n : Nat}
    (h : searchDaysAgo l = some n) : 'y' ∈ l := by
  induction l with
  | nil => cases h
  | cons c cs ih =>
    unfold searchDaysAgo at h
    split at h
    · rename_i m heq
      cases h
      exact daysAgoAt_mem heq
    · exact List.mem_cons_of_mem c (ih h)

/-- A successful `ilJeonAt` forces a `'전'` into the input. -/
theorem ilJeonAt_mem {l : List Char} {n : Nat} (h : ilJeonAt l = some n) :
    '전' ∈ l := by
  unfold ilJeonAt at h
  dsimp only [takeDigits] at h
  split at h
  · cases h
  · split at h
    · rename_i rest2 heq1
      split at h
      · rename_i rest3 heq2
        have h1 : '전' ∈ skipWs rest2 := by rw [heq2]; simp
        have h2 : '전' ∈ rest2 := mem_of_dropWhile h1
        have h3 : '전' ∈ skipWs (l.dropWhile Char.isDigit) := by
          rw [heq1]; simp [h2]
        exact mem_of_dropWhile (mem_of_dropWhile h3)
      · cases h
    · cases h

theorem searchIlJeon_mem {l : List Char} {n : Nat}
    (h : searchIlJeon l = some n) : '전' ∈ l := by
  induction l with
  | nil => cases h
  | cons c cs ih =>
    unfold searchIlJeon at h
    split at h
    · rename_i m heq
      cases h
      exact ilJeonAt_mem heq
    · exact List.mem_cons_of_mem c (ih h)

theorem monthDayFullmatch_mem {l : List Char} {x : Nat × Nat}
    (h : monthDayFullmatch l = some x) : '월' ∈ l := by
  unfold monthDayFullmatch at h
  dsimp only [takeDigits] at h
  split at h
  · cases h
  · split at h
    · rename_i rest2 heq
      exact mem_of_dropWhile (mem_of_skipWs_eq heq)
    · cases h

theorem dayFullmatch_mem {l : List Char} {x : Nat}
    (h : dayFullmatch l = some x) : '일' ∈ l := by
  unfold dayFullmatch at h
  dsimp only [takeDigits] at h
  split at h
  · cases h
  · split at h
    · rename_i heq
      exact mem_of_dropWhile (mem_of_skipWs_eq heq)
    · cases h

theorem isoFullmatch_mem {l : List Char} (h : isoFullmatch l = true) :
    '-' ∈ l ∧ ∀ c ∈ l, c.isDigit = true ∨ c = '-' := by
  unfold isoFullmatch at h
  split at h
  · rename_i c1 c2 c3 c4 c5 c6 c7 c8
    simp only [Bool.and_eq_true] at h
    refine ⟨by simp, ?_⟩
    intro x hx
    simp only [List.mem_cons, List.not_mem_nil, or_false] at hx
    rcases hx with rfl | rfl | rfl | rfl | rfl | rfl | rfl | rfl | rfl | rfl <;>
      simp_all
  · cases h

/-- Decomposition of a successful month/day fullmatch, staged along the
scanner's structure. -/
theorem monthDayFullmatch_decomp {l : List Char} {m d : Nat}
    (h : monthDayFullmatch l = some (m, d)) :
    ∃ ms w1 rest2,
      l = ms ++ (w1 ++ '월' :: rest2) ∧
      (∀ c ∈ ms, c.isDigit = true) ∧ (∀ c ∈ w1, pyIsWs c = true) ∧
      ∃ w2 ds rest3, rest2 = w2 ++ (ds ++ rest3) ∧
        (∀ c ∈ w2, pyIsWs c = true) ∧ (∀ c ∈ ds, c.isDigit = true) ∧
        ∃ w3, rest3 = w3 ++ ['일'] ∧ (∀ c ∈ w3, pyIsWs c = true) := by
  unfold monthDayFullmatch at h
  dsimp only [takeDigits] at h
  split at h
  · cases h
  · split at h
    · rename_i rest2 heq1
      split at h
      · cases h
      · split at h
        · rename_i heq2
          refine ⟨l.takeWhile Char.isDigit,
            (l.dropWhile Char.isDigit).takeWhile pyIsWs, rest2, ?_,
            fun c hc => List.mem_takeWhile_imp hc,
            fun c hc => List.mem_takeWhile_imp hc,
            rest2.takeWhile pyIsWs, (skipWs rest2).takeWhile Char.isDigit,
            (skipWs rest2).dropWhile Char.isDigit, ?_,
            fun c hc => List.mem_takeWhile_imp hc,
            fun c hc => List.mem_takeWhile_imp hc,
            ((skipWs rest2).dropWhile Char.isDigit).takeWhile pyIsWs, ?_,
            fun c hc => List.mem_takeWhile_imp hc⟩
          · conv_lhs => rw [← List.takeWhile_append_dropWhile
              (p := Char.isDigit) (l := l)]
            congr 1
            conv_lhs => rw [← List.takeWhile_append_dropWhile (p := pyIsWs)
              (l := l.dropWhile Char.isDigit)]
            rw [show (l.dropWhile Char.isDigit).dropWhile pyIsWs =
              '월' :: rest2 from heq1]
          · conv_lhs => rw [← List.takeWhile_append_dropWhile (p := pyIsWs)
              (l := rest2)]
            congr 1
            exact (List.takeWhile_append_dropWhile (p := Char.isDigit)
              (l := skipWs rest2)).symm
          · conv_lhs => rw [← List.takeWhile_append_dropWhile (p := pyIsWs)
              (l := (skipWs rest2).dropWhile Char.isDigit)]
            rw [show ((skipWs rest2).dropWhile Char.isDigit).dropWhile pyIsWs =
              ['일'] from heq2]
        · cases h
    · cases h

/-- Decomposition of a successful bare-day fullmatch. -/
theorem dayFullmatch_decomp {l : List Char} {d : Nat}
    (h : dayFullmatch l = some d) :
    ∃ ds w1, l = ds ++ (w1 ++ ['일']) ∧
      (∀ c ∈ ds, c.isDigit = true) ∧ (∀ c ∈ w1, pyIsWs c = true) := by
  unfold dayFullmatch at h
  dsimp only [takeDigits] at h
  split at h
  · cases h
  · split at h
    · rename_i heq
      refine ⟨l.takeWhile Char.isDigit,
        (l.dropWhile Char.isDigit).takeWhile pyIsWs, ?_,
        fun c hc => List.mem_takeWhile_imp hc,
        fun c hc => List.mem_takeWhile_imp hc⟩
      conv_lhs => rw [← List.takeWhile_append_dropWhile
        (p := Char.isDigit) (l := l)]
      congr 1
      conv_lhs => rw [← List.takeWhile_append_dropWhile (p := pyIsWs)
        (l := l.dropWhile Char.isDigit)]
      rw [show (l.dropWhile Char.isDigit).dropWhile pyIsWs = ['일'] from heq]
    · cases h

/-- Decomposition of a successful year/month/day fullmatch, staged along
the scanner's structure. -/
theorem ymdFullmatch_decomp {l : List Char} {y m d : Nat}
    (h : ymdFullmatch l = some (y, m, d)) :
    ∃ ys w1 rest2,
      l = ys ++ (w1 ++ '년' :: rest2) ∧
      (∀ c ∈ ys, c.isDigit = true) ∧ 2 ≤ ys.length ∧
      (∀ c ∈ w1, pyIsWs c = true) ∧
      ∃ w2 ms rest3, rest2 = w2 ++ (ms ++ rest3) ∧
        (∀ c ∈ w2, pyIsWs c = true) ∧ (∀ c ∈ ms, c.isDigit = true) ∧
        ∃ w3 rest4, rest3 = w3 ++ '월' :: rest4 ∧
          (∀ c ∈ w3, pyIsWs c = true) ∧
          ∃ w4 ds rest5, rest4 = w4 ++ (ds ++ rest5) ∧
            (∀ c ∈ w4, pyIsWs c = true) ∧ (∀ c ∈ ds, c.isDigit = true) ∧
            ∃ w5, rest5 = w5 ++ ['일'] ∧ (∀ c ∈ w5, pyIsWs c = true) := by
  unfold ymdFullmatch at h
  dsimp only [takeDigits] at h
  split at h
  · cases h
  · rename_i hlen
    split at h
    · rename_i rest2 heq1
      split at h
      · cases h
      · split at h
        · rename_i rest4 heq2
          split at h
          · cases h
          · split at h
            · rename_i heq3
              refine ⟨l.takeWhile Char.isDigit,
                (l.dropWhile Char.isDigit).takeWhile pyIsWs, rest2, ?_,
                fun c hc => List.mem_takeWhile_imp hc, ?_,
                fun c hc => List.mem_takeWhile_imp hc,
                rest2.takeWhile pyIsWs,
                (skipWs rest2).takeWhile Char.isDigit,
                (skipWs rest2).dropWhile Char.isDigit, ?_,
                fun c hc => List.mem_takeWhile_imp hc,
                fun c hc => List.mem_takeWhile_imp hc,
                ((skipWs rest2).dropWhile Char.isDigit).takeWhile pyIsWs,
                rest4, ?_,
                fun c hc => List.mem_takeWhile_imp hc,
                rest4.takeWhile pyIsWs,
                (skipWs rest4).takeWhile Char.isDigit,
                (skipWs rest4).dropWhile Char.isDigit, ?_,
                fun c hc => List.mem_takeWhile_imp hc,
                fun c hc => List.mem_takeWhile_imp hc,
                ((skipWs rest4).dropWhile Char.isDigit).takeWhile pyIsWs, ?_,
                fun c hc => List.mem_takeWhile_imp hc⟩
              · conv_lhs => rw [← List.takeWhile_append_dropWhile
                  (p := Char.isDigit) (l := l)]
                congr 1
                conv_lhs => rw [← List.takeWhile_append_dropWhile
                  (p := pyIsWs) (l := l.dropWhile Char.isDigit)]
                rw [show (l.dropWhile Char.isDigit).dropWhile pyIsWs =
                  '년' :: rest2 from heq1]
              · simp only [Bool.or_eq_true, decide_eq_true_eq, not_or] at hlen
                omega
              · conv_lhs => rw [← List.takeWhile_append_dropWhile
                  (p := pyIsWs) (l := rest2)]
                congr 1
                exact (List.takeWhile_append_dropWhile (p := Char.isDigit)
                  (l := skipWs rest2)).symm
              · conv_lhs => rw [← List.takeWhile_append_dropWhile
                  (p := pyIsWs)
                  (l := (skipWs rest2).dropWhile Char.isDigit)]
                rw [show ((skipWs rest2).dropWhile Char.isDigit).dropWhile
                  pyIsWs = '월' :: rest4 from heq2]
              · conv_lhs => rw [← List.takeWhile_append_dropWhile
                  (p := pyIsWs) (l := rest4)]
                congr 1
                exact (List.takeWhile_append_dropWhile (p := Char.isDigit)
                  (l := skipWs rest4)).symm
              · conv_lhs => rw [← List.takeWhile_append_dropWhile
                  (p := pyIsWs)
                  (l := (skipWs rest4).dropWhile Char.isDigit)]
                rw [show ((skipWs rest4).dropWhile Char.isDigit).dropWhile
                  pyIsWs = ['일'] from heq3]
            · cases h
        · cases h
    · cases h

theorem ymdFullmatch_mem {l : List Char} {x : Nat × Nat × Nat}
    (h : ymdFullmatch l = some x) : '년' ∈ l := by
  unfold ymdFullmatch at h
  dsimp only [takeDigits] at h
  split at h
  · cases h
  · split at h
    · rename_i rest2 heq
      exact mem_of_dropWhile (mem_of_skipWs_eq heq)
    · cases h

/-- Characters a month/day match may consist of. -/
theorem monthDay_charset {l : List Char} {m d : Nat}
    (h : monthDayFullmatch l = some (m, d)) :
    ∀ c ∈ l, c.isDigit = true ∨ pyIsWs c = true ∨ c = '월' ∨ c = '일' := by
  obtain ⟨ms, w1, rest2, hl, hms, hw1, w2, ds, rest3, hr2, hw2, hds, w3, hr3,
    hw3⟩ := monthDayFullmatch_decomp h
  intro c hc
  rw [hl] at hc
  simp only [List.mem_append, List.mem_cons] at hc
  rcases hc with hc | hc | rfl | hc
  · exact Or.inl (hms c hc)
  · exact Or.inr (Or.inl (hw1 c hc))
  · exact Or.inr (Or.inr (Or.inl rfl))
  · rw [hr2] at hc
    simp only [List.mem_append] at hc
    rcases hc with hc | hc | hc
    · exact Or.inr (Or.inl (hw2 c hc))
    · exact Or.inl (hds c hc)
    · rw [hr3] at hc
      simp only [List.mem_append, List.mem_singleton] at hc
      rcases hc with hc | rfl
      · exact Or.inr (Or.inl (hw3 c hc))
      · exact Or.inr (Or.inr (Or.inr rfl))

/-- Characters a bare-day match may consist of. -/
theorem day_charset {l : List Char} {d : Nat}
    (h : dayFullmatch l = some d) :
    ∀ c ∈ l, c.isDigit = true ∨ pyIsWs c = true ∨ c = '일' := by
  obtain ⟨ds, w1, hl, hds, hw1⟩ := dayFullmatch_decomp h
  intro c hc
  rw [hl] at hc
  simp only [List.mem_append, List.mem_singleton] at hc
  rcases hc with hc | hc | rfl
  · exact Or.inl (hds c hc)
  · exact Or.inr (Or.inl (hw1 c hc))
  · exact Or.inr (Or.inr rfl)

/-- Characters a year/month/day match may consist of. -/
theorem ymd_charset {l : List Char} {y m d : Nat}
    (h : ymdFullmatch l = some (y, m, d)) :
    ∀ c ∈ l, c.isDigit = true ∨ pyIsWs c = true ∨ c = '년' ∨ c = '월' ∨
      c = '일' := by
  obtain ⟨ys, w1, rest2, hl, hys, _, hw1, w2, ms, rest3, hr2, hw2, hms, w3,
    rest4, hr3, hw3, w4, ds, rest5, hr4, hw4, hds, w5, hr5, hw5⟩ :=
    ymdFullmatch_decomp h
  intro c hc
  rw [hl] at hc
  simp only [List.mem_append, List.mem_cons] at hc
  rcases hc with hc | hc | rfl | hc
  · exact Or.inl (hys c hc)
  · exact Or.inr (Or.inl (hw1 c hc))
  · exact Or.inr (Or.inr (Or.inl rfl))
  · rw [hr2] at hc
    simp only [List.mem_append] at hc
    rcases hc with hc | hc | hc
    · exact Or.inr (Or.inl (hw2 c hc))
    · exact Or.inl (hms c hc)
    · rw [hr3] at hc
      simp only [List.mem_append, List.mem_cons] at hc
      rcases hc with hc | rfl | hc
      · exact Or.inr (Or.inl (hw3 c hc))
      · exact Or.inr (Or.inr (Or.inr (Or.inl rfl)))
      · rw [hr4] at hc
        simp only [List.mem_append] at hc
        rcases hc with hc | hc | hc
        · exact Or.inr (Or.inl (hw4 c hc))
        · exact Or.inl (hds c hc)
        · rw [hr5] at hc
          simp only [List.mem_append, List.mem_singleton] at hc
          rcases hc with hc | rfl
          · exact Or.inr (Or.inl (hw5 c hc))
          · exact Or.inr (Or.inr (Or.inr (Or.inr rfl)))

/-- A list without `'y'` has no `days ago` match. -/
theorem searchDaysAgo_eq_none {l : List Char} (h : 'y' ∉ l) :
    searchDaysAgo l = none := by
  cases hs : searchDaysAgo l with
  | none => rfl
  | some n => exact absurd (searchDaysAgo_mem hs) h

/-- A list without `'전'` has no `일 전` match. -/
theorem searchIlJeon_eq_none {l : List Char} (h : '전' ∉ l) :
    searchIlJeon l = none := by
  cases hs : searchIlJeon l with
  | none => rfl
  | some n => exact absurd (searchIlJeon_mem hs) h

/-- A list without `'월'` has no month/day fullmatch. -/
theorem monthDayFullmatch_eq_none {l : List Char} (h : '월' ∉ l) :
    monthDayFullmatch l = none := by
  cases hs : monthDayFullmatch l with
  | none => rfl
  | some x => exact absurd (monthDayFullmatch_mem hs) h

/-- A list without `'-'` has no ISO fullmatch. -/
theorem isoFullmatch_eq_false {l : List Char} (h : '-' ∉ l) :
    isoFullmatch l = false := by
  cases hs : isoFullmatch l with
  | false => rfl
  | true => exact absurd (isoFullmatch_mem hs).1 h

/-- A year/month/day match is never also a month/day fullmatch: the
digit run is followed by `'년'`, not `'월'`. -/
theorem monthDayFullmatch_none_of_ymd {l : List Char} {y m d : Nat}
    (h : ymdFullmatch l = some (y, m, d)) : monthDayFullmatch l = none := by
  obtain ⟨ys, w1, rest2, hl, hys, _, hw1, _⟩ := ymdFullmatch_decomp h
  have hstop := takeWhile_stop ys (w1 ++ '년' :: rest2) hys
    (headFails_ws_digit hw1 (by decide))
  have hskip : skipWs (w1 ++ '년' :: rest2) = '년' :: rest2 :=
    (takeWhile_stop w1 ('년' :: rest2) hw1
      (show pyIsWs '년' = false by decide)).2
  rw [hl]
  unfold monthDayFullmatch
  dsimp only [takeDigits]
  rw [hstop.1, hstop.2]
  split
  · rfl
  · rw [hskip]
    rfl

/-- A year/month/day match is never also a bare-day fullmatch. -/
theorem dayFullmatch_none_of_ymd {l : List Char} {y m d : Nat}
    (h : ymdFullmatch l = some (y, m, d)) : dayFullmatch l = none := by
  obtain ⟨ys, w1, rest2, hl, hys, _, hw1, _⟩ := ymdFullmatch_decomp h
  have hstop := takeWhile_stop ys (w1 ++ '년' :: rest2) hys
    (headFails_ws_digit hw1 (by decide))
  have hskip : skipWs (w1 ++ '년' :: rest2) = '년' :: rest2 :=
    (takeWhile_stop w1 ('년' :: rest2) hw1
      (show pyIsWs '년' = false by decide)).2
  rw [hl]
  unfold dayFullmatch
  dsimp only [takeDigits]
  rw [hstop.1, hstop.2]
  split
  · rfl
  · rw [hskip]
    rfl

/-- C6 counterexample: the literal ISO form is returned without calendar
validation — February 30 passes straight through instead of yielding
`none` as the claim requires. -/
theorem normalizeRelativeDate_iso_counterexample :
    normalizeRelativeDate ⟨2026, 10, 12⟩ (some "2023-02-30") =
      some "2023-02-30" ∧
    validDate 2023 2 30 = false := ⟨rfl, by decide⟩

/-- C6 amended: invalid calendar dates in the month/day, bare-day and
year/month/day forms make `normalize_relative_date` return `none` (the
`date(...)` constructor's `ValueError` is caught); the literal ISO form,
however, is returned as-is with no calendar validation. -/
theorem normalizeRelativeDate_amended (today : Date) (t : String) :
    (∀ m d, monthDayFullmatch (pyLower (pyStrip t)).toList = some (m, d) →
      validDate today.year m d = false →
      normalizeRelativeDate today (some t) = none) ∧
    (∀ d, dayFullmatch (pyLower (pyStrip t)).toList = some d →
      validDate today.year today.month d = false →
      normalizeRelativeDate today (some t) = none) ∧
    (∀ y m d, ymdFullmatch (pyLower (pyStrip t)).toList = some (y, m, d) →
      validDate (if y < 100 then 2000 + y else y) m d = false →
      normalizeRelativeDate today (some t) = none) ∧
    (isoFullmatch (pyLower (pyStrip t)).toList = true →
      normalizeRelativeDate today (some t) =
        some (pyLower (pyStrip t))) := by
  refine ⟨?_, ?_, ?_, ?_⟩
  · intro m d h hv
    by_cases ht : t = ""
    · simp [normalizeRelativeDate, ht]
    · have hcs := monthDay_charset h
      have hy : 'y' ∉ (pyLower (pyStrip t)).toList := fun hmem => by
        rcases hcs _ hmem with h' | h' | h' | h' <;> exact absurd h' (by decide)
      have hj : '전' ∉ (pyLower (pyStrip t)).toList := fun hmem => by
        rcases hcs _ hmem with h' | h' | h' | h' <;> exact absurd h' (by decide)
      have hdash : '-' ∉ (pyLower (pyStrip t)).toList := fun hmem => by
        rcases hcs _ hmem with h' | h' | h' | h' <;> exact absurd h' (by decide)
      have hwol : '월' ∈ (pyLower (pyStrip t)).toList := monthDayFullmatch_mem h
      unfold normalizeRelativeDate
      dsimp only
      rw [if_neg ht]
      rw [if_neg (by rintro (h0 | h0) <;>
        (rw [h0] at hwol; exact absurd hwol (by decide)))]
      rw [if_neg (by rintro (h0 | h0) <;>
        (rw [h0] at hwol; exact absurd hwol (by decide)))]
      rw [if_neg (by rintro (h0 | h0 | h0 | h0 | h0) <;>
        (rw [h0] at hwol; exact absurd hwol (by decide)))]
      rw [searchDaysAgo_eq_none hy]
      dsimp only
      rw [searchIlJeon_eq_none hj]
      dsimp only
      rw [if_neg (fun hh => by
        rw [isoFullmatch_eq_false hdash] at hh
        exact absurd hh (by decide))]
      rw [h]
      dsimp only
      unfold mkDate
      rw [if_neg (by simp [hv])]
      rfl
  · intro d h hv
    by_cases ht : t = ""
    · simp [normalizeRelativeDate, ht]
    · have hcs := day_charset h
      have hy : 'y' ∉ (pyLower (pyStrip t)).toList := fun hmem => by
        rcases hcs _ hmem with h' | h' | h' <;> exact absurd h' (by decide)
      have hj : '전' ∉ (pyLower (pyStrip t)).toList := fun hmem => by
        rcases hcs _ hmem with h' | h' | h' <;> exact absurd h' (by decide)
      have hdash : '-' ∉ (pyLower (pyStrip t)).toList := fun hmem => by
        rcases hcs _ hmem with h' | h' | h' <;> exact absurd h' (by decide)
      have hwol : '월' ∉ (pyLower (pyStrip t)).toList := fun hmem => by
        rcases hcs _ hmem with h' | h' | h' <;> exact absurd h' (by decide)
      have hil : '일' ∈ (pyLower (pyStrip t)).toList := dayFullmatch_mem h
      unfold normalizeRelativeDate
      dsimp only
      rw [if_neg ht]
      rw [if_neg (by rintro (h0 | h0) <;>
        (rw [h0] at hil; exact absurd hil (by decide)))]
      rw [if_neg (by rintro (h0 | h0) <;>
        (rw [h0] at hil; exact absurd hil (by decide)))]
      rw [if_neg (by rintro (h0 | h0 | h0 | h0 | h0) <;>
        (rw [h0] at hil; exact absurd hil (by decide)))]
      rw [searchDaysAgo_eq_none hy]
      dsimp only
      rw [searchIlJeon_eq_none hj]
      dsimp only
      rw [if_neg (fun hh => by
        rw [isoFullmatch_eq_false hdash] at hh
        exact absurd hh (by decide))]
      rw [monthDayFullmatch_eq_none hwol]
      dsimp only
      rw [h]
      dsimp only
      unfold mkDate
      rw [if_neg (by simp [hv])]
      rfl
  · intro y m d h hv
    by_cases ht : t = ""
    · simp [normalizeRelativeDate, ht]
    · have hcs := ymd_charset h
      have hy : 'y' ∉ (pyLower (pyStrip t)).toList := fun hmem => by
        rcases hcs _ hmem with h' | h' | h' | h' | h' <;>
          exact absurd h' (by decide)
      have hj : '전' ∉ (pyLower (pyStrip t)).toList := fun hmem => by
        rcases hcs _ hmem with h' | h' | h' | h' | h' <;>
          exact absurd h' (by decide)
      have hdash : '-' ∉ (pyLower (pyStrip t)).toList := fun hmem => by
        rcases hcs _ hmem with h' | h' | h' | h' | h' <;>
          exact absurd h' (by decide)
      have hnyeon : '년' ∈ (pyLower (pyStrip t)).toList := ymdFullmatch_mem h
      unfold normalizeRelativeDate
      dsimp only
      rw [if_neg ht]
      rw [if_neg (by rintro (h0 | h0) <;>
        (rw [h0] at hnyeon; exact absurd hnyeon (by decide)))]
      rw [if_neg (by rintro (h0 | h0) <;>
        (rw [h0] at hnyeon; exact absurd hnyeon (by decide)))]
      rw [if_neg (by rintro (h0 | h0 | h0 | h0 | h0) <;>
        (rw [h0] at hnyeon; exact absurd hnyeon (by decide)))]
      rw [searchDaysAgo_eq_none hy]
      dsimp only
      rw [searchIlJeon_eq_none hj]
      dsimp only
      rw [if_neg (fun hh => by
        rw [isoFullmatch_eq_false hdash] at hh
        exact absurd hh (by decide))]
      rw [monthDayFullmatch_none_of_ymd h]
      dsimp only
      rw [dayFullmatch_none_of_ymd h]
      dsimp only
      rw [h]
      dsimp only
      unfold mkDate
      rw [if_neg (by simp [hv])]
      rfl
  · intro h
    by_cases ht : t = ""
    · rw [ht] at h
      exact absurd h (by decide)
    · have hiso := isoFullmatch_mem h
      have hy : 'y' ∉ (pyLower (pyStrip t)).toList := fun hmem => by
        rcases hiso.2 _ hmem with h' | h' <;> exact absurd h' (by decide)
      have hj : '전' ∉ (pyLower (pyStrip t)).toList := fun hmem => by
        rcases hiso.2 _ hmem with h' | h' <;> exact absurd h' (by decide)
      have hdash := hiso.1
      unfold normalizeRelativeDate
      dsimp only
      rw [if_neg ht]
      rw [if_neg (by rintro (h0 | h0) <;>
        (rw [h0] at hdash; exact absurd hdash (by decide)))]
      rw [if_neg (by rintro (h0 | h0) <;>
        (rw [h0] at hdash; exact absurd hdash (by decide)))]
      rw [if_neg (by rintro (h0 | h0 | h0 | h0 | h0) <;>
        (rw [h0] at hdash; exact absurd hdash (by decide)))]
      rw [searchDaysAgo_eq_none hy]
      dsimp only
      rw [searchIlJeon_eq_none hj]
      dsimp only
      rw [if_pos h]

/-- C6 witness: the amended statement applied at "2월 30일" (month/day),
"31일" in a 30-day month, "23년 2월 30일" (year/month/day), and the
ISO passthrough "2023-02-30". -/
theorem normalizeRelativeDate_amended_witness :
    normalizeRelativeDate ⟨2026, 10, 12⟩ (some "2월 30일") = none ∧
    normalizeRelativeDate ⟨2026, 11, 12⟩ (some "31일") = none ∧
    normalizeRelativeDate ⟨2026, 10, 12⟩ (some "23년 2월 30일") = none ∧
    normalizeRelativeDate ⟨2026, 10, 12⟩ (some "2023-02-30") =
      some "2023-02-30" := by
  refine ⟨?_, ?_, ?_, ?_⟩
  · exact (normalizeRelativeDate_amended ⟨2026, 10, 12⟩ "2월 30일").1 2 30
      (by decide) (by decide)
  · exact (normalizeRelativeDate_amended ⟨2026, 11, 12⟩ "31일").2.1 31
      (by decide) (by decide)
  · exact (normalizeRelativeDate_amended ⟨2026, 10, 12⟩ "23년 2월 30일").2.2.1
      23 2 30 (by decide) (by decide)
  · exact (normalizeRelativeDate_amended ⟨2026, 10, 12⟩ "2023-02-30").2.2.2
      (by decide)

end LedgerAI
